import Mathlib

/-!
Verification of the maze-generation and game-loop core of `Mazegame.py`.

The Python program is shallowly embedded:
* Python's global `random` stream is modelled as a stream of naturals
  `RNG = Nat → Nat`; each primitive (`randint`, `random.random`,
  `random.choice`, `random.shuffle`) consumes values from the stream.
  `random.random()` is modelled as a rational `(g 0 % 1000000) / 1000000`
  in `[0,1)`; `random.shuffle` is modelled as a selection shuffle driven by
  the stream (for every stream the result is some permutation of the input,
  and every permutation is reachable, which is the observable behaviour of
  the Python call relevant here).
* The mutable 2-d arrays `cells` and `visited` become functions
  `Int × Int → _` with pointwise functional update; grid coordinates are
  integers, as in Python.
* The `while stack:` generation loop becomes a fuel-indexed iteration of a
  single-step function `genStep`; `2*w*h + 1` units of fuel are proved
  sufficient for the stack to empty.
-/

namespace Mazegame

/-- Model of the global `random` stream: an infinite supply of naturals. -/
def RNG : Type := Nat → Nat

def RNG.head (g : RNG) : Nat := g 0

def RNG.tail (g : RNG) : RNG := fun i => g (i + 1)

/-- `random.randint(a, b)`: uniform integer in `[a, b]`. -/
def randint (a b : Int) (g : RNG) : Int × RNG :=
  (a + (g.head : Int) % (b - a + 1), g.tail)

/-- `random.random()`: uniform real in `[0,1)`, modelled as a rational. -/
def randomQ (g : RNG) : ℚ × RNG :=
  (((g.head % 1000000 : Nat) : ℚ) / 1000000, g.tail)

/-- `random.choice(l)`: uniformly chosen element of `l` (`dflt` is returned
only for the empty list, which never occurs at the call sites). -/
def pychoice {α : Type} (l : List α) (dflt : α) (g : RNG) : α × RNG :=
  (l.getD (g.head % l.length) dflt, g.tail)

/-- Selection-shuffle step, fuel-indexed (fuel = length at the top call). -/
def shuffleAux {α : Type} : Nat → List α → RNG → List α × RNG
  | 0, l, g => (l, g)
  | _ + 1, [], g => ([], g)
  | n + 1, a :: as, g =>
    let i := g.head % (a :: as).length
    let x := (a :: as).getD i a
    let rest := (a :: as).eraseIdx i
    let p := shuffleAux n rest g.tail
    (x :: p.1, p.2)

/-- `random.shuffle(l)` (see the module comment for the modelling). -/
def shuffle {α : Type} (l : List α) (g : RNG) : List α × RNG :=
  shuffleAux l.length l g

/-- `directions` table from `Maze.generate_maze`: `(dy, dx, dir, opp_dir)`. -/
def directions : List (Int × Int × Nat × Nat) :=
  [(-1, 0, 0, 1), (1, 0, 1, 0), (0, 1, 2, 3), (0, -1, 3, 2)]

/-- The coordinate reached from `c` through a door with code `d`
(0 = North, 1 = South, 2 = East, 3 = West). -/
def dstep (c : Int × Int) (d : Nat) : Int × Int :=
  match d with
  | 0 => (c.1 - 1, c.2)
  | 1 => (c.1 + 1, c.2)
  | 2 => (c.1, c.2 + 1)
  | 3 => (c.1, c.2 - 1)
  | _ => c

/-- Opposite direction code. -/
def oppd (d : Nat) : Nat :=
  match d with
  | 0 => 1
  | 1 => 0
  | 2 => 3
  | 3 => 2
  | _ => d

/-- The Python bounds check `0 <= y < height and 0 <= x < width`. -/
def inGrid (w h : Nat) (c : Int × Int) : Prop :=
  0 ≤ c.1 ∧ c.1 < (h : Int) ∧ 0 ≤ c.2 ∧ c.2 < (w : Int)

instance inGridDec (w h : Nat) (c : Int × Int) : Decidable (inGrid w h c) := by
  unfold inGrid
  exact inferInstance

/-- Per-cell door lists, the functional image of `self.cells`. -/
def Cells : Type := Int × Int → List Nat

/-- Pointwise functional update. -/
def updF {β : Type} (f : Int × Int → β) (c : Int × Int) (v : β) : Int × Int → β :=
  fun x => if x = c then v else f x

/-- `self.cells[c].append(d)`. -/
def addDoor (cs : Cells) (c : Int × Int) (d : Nat) : Cells :=
  updF cs c (cs c ++ [d])

/-- State of the DFS spanning-tree loop in `Maze.generate_maze`. -/
structure GenSt where
  cells : Cells
  visited : Int × Int → Bool
  stack : List (Int × Int)
  g : RNG

/-- The `unvisited_neighbors` list computed for the cell on top of the stack. -/
def unvisitedNeighbors (w h : Nat) (vis : Int × Int → Bool) (y x : Int) :
    List (Int × Int × Nat × Nat) :=
  directions.filterMap fun t =>
    if inGrid w h (y + t.1, x + t.2.1) ∧ vis (y + t.1, x + t.2.1) = false then
      some (y + t.1, x + t.2.1, t.2.2.1, t.2.2.2)
    else none

/-- One iteration of the `while stack:` loop of `Maze.generate_maze`. -/
def genStep (w h : Nat) (s : GenSt) : GenSt :=
  match s.stack with
  | [] => s
  | (y, x) :: rest =>
    let uns := unvisitedNeighbors w h s.visited y x
    if uns ≠ [] then
      let p := pychoice uns ((0 : Int), (0 : Int), 0, 0) s.g
      let ny := p.1.1
      let nx := p.1.2.1
      let d := p.1.2.2.1
      let o := p.1.2.2.2
      { cells := addDoor (addDoor s.cells (y, x) d) (ny, nx) o
        visited := updF s.visited (ny, nx) true
        stack := (ny, nx) :: (y, x) :: rest
        g := p.2 }
    else
      { s with stack := rest }

/-- The `while stack:` loop, fuel-indexed. -/
def genLoop (w h : Nat) : Nat → GenSt → GenSt
  | 0, s => s
  | n + 1, s =>
    match s.stack with
    | [] => s
    | _ :: _ => genLoop w h n (genStep w h s)

/-- Initial state of `Maze.generate_maze`: `(0,0)` visited and on the stack. -/
def initSt (g : RNG) : GenSt :=
  { cells := fun _ => []
    visited := updF (fun _ => false) (0, 0) true
    stack := [((0 : Int), (0 : Int))]
    g := g }

/-- One pair of appends of the densification inner loop:
`cells[y][x].append(d); cells[ny][nx].append(opp)`. -/
def addPairs (yx : Int × Int) (cs : Cells) (l : List (Int × Int × Nat × Nat)) : Cells :=
  l.foldl (fun acc t => addDoor (addDoor acc yx t.2.2.1) (t.1, t.2.1) t.2.2.2) cs

/-- The `possible_adds` list of the densification pass. -/
def densPossible (w h : Nat) (cs : Cells) (yx : Int × Int) : List (Int × Int × Nat × Nat) :=
  directions.filterMap fun t =>
    if inGrid w h (yx.1 + t.1, yx.2 + t.2.1) ∧ t.2.2.1 ∉ cs yx then
      some (yx.1 + t.1, yx.2 + t.2.1, t.2.2.1, t.2.2.2)
    else none

/-- Densification body for one cell (`# Ensure 2-4 doors per room`).
`min (2 - deg) _` on `Nat` equals Python's `min(max(2 - deg, 0), _)`. -/
def densifyCell (w h : Nat) (st : Cells × RNG) (yx : Int × Int) : Cells × RNG :=
  let cs := st.1
  let deg := (cs yx).length
  if deg < 4 then
    let sh := shuffle (densPossible w h cs yx) st.2
    let adds := min (2 - deg) sh.1.length
    (addPairs yx cs (sh.1.take adds), sh.2)
  else st

/-- Row-major enumeration of the grid cells (`for y ... for x ...`). -/
def cellList (w h : Nat) : List (Int × Int) :=
  (List.range h).flatMap fun (y : Nat) => (List.range w).map fun (x : Nat) =>
    (((y : Nat) : Int), ((x : Nat) : Int))

/-- The densification pass of `Maze.generate_maze`. -/
def densify (w h : Nat) (cs : Cells) (g : RNG) : Cells × RNG :=
  (cellList w h).foldl (densifyCell w h) (cs, g)

/-- `Maze.generate_maze`: DFS spanning tree followed by densification. -/
def generate_maze (w h : Nat) (g : RNG) : Cells × RNG :=
  let s := genLoop w h (2 * w * h + 1) (initSt g)
  densify w h s.cells s.g

/-- The `Maze` object, as left by `Maze.__init__`. -/
structure Maze where
  width : Nat
  height : Nat
  cells : Cells
  exit_room : Int × Int

/-- `Maze.__init__`: generate the maze, then pick the exit room. -/
def Maze.make (w h : Nat) (g : RNG) : Maze × RNG :=
  let p := generate_maze w h g
  let ey := randint 0 ((h : Int) - 1) p.2
  let ex := randint 0 ((w : Int) - 1) ey.2
  ({ width := w, height := h, cells := p.1, exit_room := (ey.1, ex.1) }, ex.2)

/-- `Maze.get_neighbors`: doors of the cell, filtered by the bounds checks,
in the order of the cell's door list. -/
def get_neighbors (m : Maze) (y x : Int) : List (String × Int × Int) :=
  (m.cells (y, x)).filterMap fun d =>
    if d = 0 ∧ y - 1 ≥ 0 then some ("North", y - 1, x)
    else if d = 1 ∧ y + 1 < (m.height : Int) then some ("South", y + 1, x)
    else if d = 2 ∧ x + 1 < (m.width : Int) then some ("East", y, x + 1)
    else if d = 3 ∧ x - 1 ≥ 0 then some ("West", y, x - 1)
    else none

/-! ### Basic lemmas on directions -/

lemma oppd_lt {d : Nat} (hd : d < 4) : oppd d < 4 := by
  interval_cases d <;> simp [oppd]

lemma oppd_oppd {d : Nat} (hd : d < 4) : oppd (oppd d) = d := by
  interval_cases d <;> simp [oppd]

lemma dstep0 (y x : Int) : dstep (y, x) 0 = (y - 1, x) := rfl

lemma dstep1 (y x : Int) : dstep (y, x) 1 = (y + 1, x) := rfl

lemma dstep2 (y x : Int) : dstep (y, x) 2 = (y, x + 1) := rfl

lemma dstep3 (y x : Int) : dstep (y, x) 3 = (y, x - 1) := rfl

lemma dstep_oppd (c : Int × Int) {d : Nat} (hd : d < 4) :
    dstep (dstep c d) (oppd d) = c := by
  obtain ⟨y, x⟩ := c
  interval_cases d <;> simp [dstep, oppd, Prod.ext_iff]

lemma dstep_ne (c : Int × Int) {d : Nat} (hd : d < 4) : dstep c d ≠ c := by
  obtain ⟨y, x⟩ := c
  interval_cases d <;> simp [dstep, Prod.ext_iff]

/-! ### `pychoice` and `shuffle` -/

lemma pychoice_mem {α : Type} {l : List α} (dflt : α) (g : RNG) (hl : l ≠ []) :
    (pychoice l dflt g).1 ∈ l := by
  have hpos : 0 < l.length := List.length_pos.mpr hl
  have hlt : g.head % l.length < l.length := Nat.mod_lt _ hpos
  simp only [pychoice]
  rw [List.getD_eq_getElem l dflt hlt]
  exact List.getElem_mem hlt

lemma getD_cons_eraseIdx_perm {α : Type} (dflt : α) :
    ∀ (l : List α) (i : Nat), i < l.length →
      l.Perm (l.getD i dflt :: l.eraseIdx i)
  | [], i, h => by simp at h
  | a :: as, 0, _ => by simp
  | a :: as, i + 1, h => by
    have hi : i < as.length := by simpa using h
    have ih := getD_cons_eraseIdx_perm dflt as i hi
    have h1 : (a :: as).Perm (a :: (as.getD i dflt :: as.eraseIdx i)) := ih.cons a
    have h2 : (a :: as.getD i dflt :: as.eraseIdx i).Perm
        (as.getD i dflt :: a :: as.eraseIdx i) := List.Perm.swap _ _ _
    simpa [List.getD_cons_succ, List.eraseIdx_cons_succ] using h1.trans h2

lemma shuffleAux_perm {α : Type} :
    ∀ (n : Nat) (l : List α) (g : RNG), (shuffleAux n l g).1.Perm l
  | 0, l, g => by simp [shuffleAux]
  | n + 1, [], g => by simp [shuffleAux]
  | n + 1, a :: as, g => by
    have hpos : 0 < (a :: as).length := by simp
    have hlt : g.head % (a :: as).length < (a :: as).length := Nat.mod_lt _ hpos
    have ih := shuffleAux_perm n ((a :: as).eraseIdx (g.head % (a :: as).length)) g.tail
    simp only [shuffleAux]
    exact ((ih.cons _).trans (getD_cons_eraseIdx_perm a _ _ hlt).symm)

lemma shuffle_perm {α : Type} (l : List α) (g : RNG) : (shuffle l g).1.Perm l :=
  shuffleAux_perm _ _ _

/-! ### Reachability in the door graph -/

/-- One door step: `v` is reached from `u` through a door of `u`. -/
def doorRel (cs : Cells) (u v : Int × Int) : Prop :=
  ∃ d, d ∈ cs u ∧ v = dstep u d

/-- `b` is reachable from `a` through the carved doors. -/
def Reach (cs : Cells) (a b : Int × Int) : Prop :=
  Relation.ReflTransGen (doorRel cs) a b

lemma Reach.mono {cs cs' : Cells} (h : ∀ c d, d ∈ cs c → d ∈ cs' c)
    {a b : Int × Int} (hr : Reach cs a b) : Reach cs' a b :=
  Relation.ReflTransGen.mono (fun u v hd => by
    obtain ⟨d, hm, he⟩ := hd
    exact ⟨d, h _ _ hm, he⟩) hr

/-! ### Characterisation of `unvisitedNeighbors` -/

lemma mem_unvisitedNeighbors {w h : Nat} {vis : Int × Int → Bool} {y x ny nx : Int}
    {d o : Nat} (hm : (ny, nx, d, o) ∈ unvisitedNeighbors w h vis y x) :
    inGrid w h (ny, nx) ∧ vis (ny, nx) = false ∧ d < 4 ∧ o = oppd d ∧
      (ny, nx) = dstep (y, x) d := by
  simp only [unvisitedNeighbors, List.mem_filterMap] at hm
  rcases hm with ⟨a, ha, hfa⟩
  simp only [directions, List.mem_cons, List.not_mem_nil, or_false] at ha
  rcases ha with rfl | rfl | rfl | rfl <;>
    · split_ifs at hfa with hc
      simp only [Option.some.injEq, Prod.mk.injEq] at hfa
      obtain ⟨h1, h2, h3, h4⟩ := hfa
      subst h1; subst h2; subst h3; subst h4
      refine ⟨hc.1, hc.2, by norm_num, rfl, ?_⟩
      simp only [dstep0, dstep1, dstep2, dstep3, Prod.mk.injEq]
      constructor <;> ring

lemma unvisitedNeighbors_nil {w h : Nat} {vis : Int × Int → Bool} {y x : Int}
    (hn : unvisitedNeighbors w h vis y x = []) :
    ∀ d, d < 4 → inGrid w h (dstep (y, x) d) → vis (dstep (y, x) d) = true := by
  intro d hd hg
  rw [unvisitedNeighbors, List.filterMap_eq_nil_iff] at hn
  cases hv : vis (dstep (y, x) d)
  · exfalso
    interval_cases d
    · have h0 := hn ((-1 : Int), (0 : Int), 0, 1) (by simp [directions])
      have he : ((y + -1 : Int), (x + (0 : Int))) = dstep (y, x) 0 := by
        rw [dstep0, Prod.mk.injEq]; constructor <;> ring
      rw [he, if_pos ⟨hg, hv⟩] at h0
      cases h0
    · have h0 := hn ((1 : Int), (0 : Int), 1, 0) (by simp [directions])
      have he : ((y + 1 : Int), (x + (0 : Int))) = dstep (y, x) 1 := by
        rw [dstep1, Prod.mk.injEq]; constructor <;> ring
      rw [he, if_pos ⟨hg, hv⟩] at h0
      cases h0
    · have h0 := hn ((0 : Int), (1 : Int), 2, 3) (by simp [directions])
      have he : ((y + 0 : Int), (x + (1 : Int))) = dstep (y, x) 2 := by
        rw [dstep2, Prod.mk.injEq]; constructor <;> ring
      rw [he, if_pos ⟨hg, hv⟩] at h0
      cases h0
    · have h0 := hn ((0 : Int), (-1 : Int), 3, 2) (by simp [directions])
      have he : ((y + 0 : Int), (x + (-1 : Int))) = dstep (y, x) 3 := by
        rw [dstep3, Prod.mk.injEq]; constructor <;> ring
      rw [he, if_pos ⟨hg, hv⟩] at h0
      cases h0
  · rfl

/-! ### The DFS loop: step equations, measure, invariant -/

lemma genStep_pop {w h : Nat} {s : GenSt} {y x : Int} {rest : List (Int × Int)}
    (hst : s.stack = (y, x) :: rest)
    (hu : unvisitedNeighbors w h s.visited y x = []) :
    genStep w h s = { s with stack := rest } := by
  unfold genStep
  rw [hst]
  simp [hu]

lemma genStep_push {w h : Nat} {s : GenSt} {y x : Int} {rest : List (Int × Int)}
    (hst : s.stack = (y, x) :: rest)
    (hu : unvisitedNeighbors w h s.visited y x ≠ []) :
    genStep w h s =
      { cells := addDoor
          (addDoor s.cells (y, x)
            (pychoice (unvisitedNeighbors w h s.visited y x) ((0 : Int), (0 : Int), 0, 0) s.g).1.2.2.1)
          ((pychoice (unvisitedNeighbors w h s.visited y x) ((0 : Int), (0 : Int), 0, 0) s.g).1.1,
           (pychoice (unvisitedNeighbors w h s.visited y x) ((0 : Int), (0 : Int), 0, 0) s.g).1.2.1)
          (pychoice (unvisitedNeighbors w h s.visited y x) ((0 : Int), (0 : Int), 0, 0) s.g).1.2.2.2
        visited := updF s.visited
          ((pychoice (unvisitedNeighbors w h s.visited y x) ((0 : Int), (0 : Int), 0, 0) s.g).1.1,
           (pychoice (unvisitedNeighbors w h s.visited y x) ((0 : Int), (0 : Int), 0, 0) s.g).1.2.1) true
        stack :=
          ((pychoice (unvisitedNeighbors w h s.visited y x) ((0 : Int), (0 : Int), 0, 0) s.g).1.1,
           (pychoice (unvisitedNeighbors w h s.visited y x) ((0 : Int), (0 : Int), 0, 0) s.g).1.2.1)
            :: (y, x) :: rest
        g := (pychoice (unvisitedNeighbors w h s.visited y x) ((0 : Int), (0 : Int), 0, 0) s.g).2 } := by
  unfold genStep
  rw [hst]
  simp [hu]

/-- The in-grid cells as a finite set, for the termination measure. -/
def gridF (w h : Nat) : Finset (Int × Int) :=
  Finset.Ico (0 : Int) (h : Int) ×ˢ Finset.Ico (0 : Int) (w : Int)

lemma mem_gridF {w h : Nat} {c : Int × Int} : c ∈ gridF w h ↔ inGrid w h c := by
  obtain ⟨y, x⟩ := c
  simp [gridF, inGrid, Finset.mem_product, Finset.mem_Ico]
  tauto

/-- Number of unvisited in-grid cells. -/
def unvisCard (w h : Nat) (s : GenSt) : Nat :=
  ((gridF w h).filter (fun c => s.visited c = false)).card

/-- Termination measure for the `while stack:` loop. -/
def genMeasure (w h : Nat) (s : GenSt) : Nat :=
  2 * unvisCard w h s + s.stack.length

lemma genStep_measure {w h : Nat} {s : GenSt} (hs : s.stack ≠ []) :
    genMeasure w h (genStep w h s) < genMeasure w h s := by
  cases hst : s.stack with
  | nil => exact absurd hst hs
  | cons yx rest =>
    obtain ⟨y, x⟩ := yx
    by_cases hu : unvisitedNeighbors w h s.visited y x = []
    · rw [genStep_pop hst hu]
      simp [genMeasure, unvisCard, hst]
    · rw [genStep_push hst hu]
      set t := (pychoice (unvisitedNeighbors w h s.visited y x) ((0 : Int), (0 : Int), 0, 0) s.g).1
        with ht
      obtain ⟨ny, nx, d, o⟩ := t
      have hmem : ((ny, nx, d, o) : Int × Int × Nat × Nat) ∈
          unvisitedNeighbors w h s.visited y x := by
        rw [ht]
        exact pychoice_mem _ _ hu
      obtain ⟨hg, hv, -, -, -⟩ := mem_unvisitedNeighbors hmem
      have hfe : (gridF w h).filter (fun c => updF s.visited (ny, nx) true c = false) =
          ((gridF w h).filter (fun c => s.visited c = false)).erase (ny, nx) := by
        ext c
        simp only [Finset.mem_filter, Finset.mem_erase, updF]
        by_cases hc : c = (ny, nx)
        · simp [hc]
        · simp [hc]
      have hmf : (ny, nx) ∈ (gridF w h).filter (fun c => s.visited c = false) := by
        simp [Finset.mem_filter, mem_gridF, hg, hv]
      have hpos : 0 < ((gridF w h).filter (fun c => s.visited c = false)).card :=
        Finset.card_pos.mpr ⟨_, hmf⟩
      have hcard := Finset.card_erase_of_mem hmf
      simp only [genMeasure, unvisCard, hst]
      rw [hfe, hcard]
      simp only [List.length_cons]
      omega

/-- Soundness of the door lists: every recorded door joins two in-grid cells,
has a valid code, has its opposite door on the other side, and no cell lists
a direction twice. -/
def DoorInv (w h : Nat) (cs : Cells) : Prop :=
  (∀ c, (cs c).Nodup) ∧
  (∀ c d, d ∈ cs c →
    inGrid w h c ∧ d < 4 ∧ inGrid w h (dstep c d) ∧ oppd d ∈ cs (dstep c d))

/-- Invariant of the `while stack:` loop. -/
structure LoopInv (w h : Nat) (s : GenSt) : Prop where
  stackGrid : ∀ c ∈ s.stack, inGrid w h c ∧ s.visited c = true
  origin : s.visited (0, 0) = true
  reach : ∀ c, s.visited c = true → Reach s.cells (0, 0) c
  closed : ∀ c, s.visited c = true → c ∉ s.stack →
    ∀ d, d < 4 → inGrid w h (dstep c d) → s.visited (dstep c d) = true
  doors : DoorInv w h s.cells
  doorVis : ∀ c d, d ∈ s.cells c → s.visited c = true ∧ s.visited (dstep c d) = true

lemma inGrid_mk {w h : Nat} {y x : Int} :
    inGrid w h (y, x) ↔ 0 ≤ y ∧ y < (h : Int) ∧ 0 ≤ x ∧ x < (w : Int) := Iff.rfl

lemma initSt_visited {g : RNG} (c : Int × Int) :
    (initSt g).visited c = true ↔ c = (0, 0) := by
  by_cases hc : c = (0, 0) <;> simp [initSt, updF, hc]

lemma initSt_inv {w h : Nat} (g : RNG) (hw : 1 ≤ w) (hh : 1 ≤ h) :
    LoopInv w h (initSt g) := by
  constructor
  · intro c hc
    simp only [initSt, List.mem_singleton] at hc
    subst hc
    refine ⟨?_, (initSt_visited _).mpr rfl⟩
    rw [inGrid_mk]
    omega
  · exact (initSt_visited _).mpr rfl
  · intro c hc
    rw [initSt_visited] at hc
    subst hc
    exact Relation.ReflTransGen.refl
  · intro c hc hns
    rw [initSt_visited] at hc
    subst hc
    exfalso
    apply hns
    simp [initSt]
  · exact ⟨fun c => by simp [initSt], fun c d hd => by simp [initSt] at hd⟩
  · intro c d hd
    simp [initSt] at hd

lemma genStep_nil {w h : Nat} {s : GenSt} (hst : s.stack = []) : genStep w h s = s := by
  unfold genStep
  rw [hst]

lemma nodup_append_one {l : List Nat} {a : Nat} (hn : l.Nodup) (ha : a ∉ l) :
    (l ++ [a]).Nodup := by
  simp [List.nodup_append, hn, ha]

lemma genStep_inv {w h : Nat} {s : GenSt} (inv : LoopInv w h s) :
    LoopInv w h (genStep w h s) := by
  cases hst : s.stack with
  | nil => rw [genStep_nil hst]; exact inv
  | cons yx rest =>
    obtain ⟨y, x⟩ := yx
    by_cases hu : unvisitedNeighbors w h s.visited y x = []
    · rw [genStep_pop hst hu]
      constructor
      · intro c hc
        exact inv.stackGrid c (by rw [hst]; exact List.mem_cons_of_mem _ hc)
      · exact inv.origin
      · exact inv.reach
      · intro c hc hns d hd hg
        by_cases hcy : c = (y, x)
        · subst hcy
          exact unvisitedNeighbors_nil hu d hd hg
        · refine inv.closed c hc ?_ d hd hg
          rw [hst]
          simp only [List.mem_cons]
          tauto
      · exact inv.doors
      · exact inv.doorVis
    · rw [genStep_push hst hu]
      generalize hq :
        (pychoice (unvisitedNeighbors w h s.visited y x) ((0 : Int), (0 : Int), 0, 0) s.g).1 = t
      obtain ⟨ny, nx, d, o⟩ := t
      have hmem : ((ny, nx, d, o) : Int × Int × Nat × Nat) ∈
          unvisitedNeighbors w h s.visited y x := by
        rw [← hq]
        exact pychoice_mem _ _ hu
      obtain ⟨hgn, hvn, hd4, ho, hds⟩ := mem_unvisitedNeighbors hmem
      have hyx := inv.stackGrid (y, x) (by rw [hst]; exact List.mem_cons_self _ _)
      have hne : ((y, x) : Int × Int) ≠ (ny, nx) := by
        rw [hds]
        exact (dstep_ne _ hd4).symm
      have hdnotin : d ∉ s.cells (y, x) := by
        intro hmem2
        have := (inv.doorVis _ _ hmem2).2
        rw [← hds] at this
        rw [this] at hvn
        cases hvn
      have hcellsnil : s.cells (ny, nx) = [] := by
        rw [List.eq_nil_iff_forall_not_mem]
        intro d2 hd2
        have := (inv.doorVis _ _ hd2).1
        rw [this] at hvn
        cases hvn
      have cval : addDoor (addDoor s.cells (y, x) d) (ny, nx) o (y, x) =
          s.cells (y, x) ++ [d] := by
        simp [addDoor, updF, hne]
      have cvaln : addDoor (addDoor s.cells (y, x) d) (ny, nx) o (ny, nx) =
          s.cells (ny, nx) ++ [o] := by
        simp [addDoor, updF, hne.symm]
      have cother : ∀ c : Int × Int, c ≠ (y, x) → c ≠ (ny, nx) →
          addDoor (addDoor s.cells (y, x) d) (ny, nx) o c = s.cells c := by
        intro c h1 h2
        simp [addDoor, updF, h1, h2]
      have cmono : ∀ (c : Int × Int) (d2 : Nat), d2 ∈ s.cells c →
          d2 ∈ addDoor (addDoor s.cells (y, x) d) (ny, nx) o c := by
        intro c d2 hd2
        by_cases h1 : c = (y, x)
        · subst h1; rw [cval]; exact List.mem_append_left _ hd2
        · by_cases h2 : c = (ny, nx)
          · subst h2; rw [cvaln]; exact List.mem_append_left _ hd2
          · rw [cother c h1 h2]; exact hd2
      have vmono : ∀ c : Int × Int, s.visited c = true →
          updF s.visited (ny, nx) true c = true := by
        intro c hc
        simp only [updF]
        split_ifs <;> simp [hc]
      have vself : updF s.visited (ny, nx) true (ny, nx) = true := by
        simp [updF]
      have vcases : ∀ c : Int × Int, updF s.visited (ny, nx) true c = true →
          c = (ny, nx) ∨ s.visited c = true := by
        intro c hc
        simp only [updF] at hc
        split_ifs at hc with he
        · exact Or.inl he
        · exact Or.inr hc
      constructor <;> dsimp only
      · intro c hc
        simp only [List.mem_cons] at hc
        rcases hc with rfl | hc
        · exact ⟨hgn, vself⟩
        · have hc2 : c ∈ s.stack := by rw [hst]; exact List.mem_cons.mpr hc
          exact ⟨(inv.stackGrid c hc2).1, vmono c (inv.stackGrid c hc2).2⟩
      · exact vmono _ inv.origin
      · intro c hc
        rcases vcases c hc with rfl | hc2
        · have hr : Reach (addDoor (addDoor s.cells (y, x) d) (ny, nx) o) (0, 0) (y, x) :=
            (inv.reach _ hyx.2).mono cmono
          refine Relation.ReflTransGen.tail hr ⟨d, ?_, hds⟩
          rw [cval]
          exact List.mem_append_right _ (List.mem_singleton.mpr rfl)
        · exact (inv.reach c hc2).mono cmono
      · intro c hc hns d2 hd2 hg2
        have hcn : c ≠ (ny, nx) := by
          intro he
          exact hns (by rw [he]; exact List.mem_cons_self _ _)
        rcases vcases c hc with he | hc2
        · exact absurd he hcn
        · have hns2 : c ∉ s.stack := by
            rw [hst]
            intro hmem3
            exact hns (List.mem_cons_of_mem _ hmem3)
          exact vmono _ (inv.closed c hc2 hns2 d2 hd2 hg2)
      · constructor
        · intro c
          by_cases h1 : c = (y, x)
          · subst h1
            rw [cval]
            exact nodup_append_one (inv.doors.1 _) hdnotin
          · by_cases h2 : c = (ny, nx)
            · subst h2
              rw [cvaln, hcellsnil]
              exact List.nodup_singleton _
            · rw [cother c h1 h2]
              exact inv.doors.1 c
        · intro c d2 hd2
          by_cases h1 : c = (y, x)
          · subst h1
            rw [cval] at hd2
            rcases List.mem_append.mp hd2 with hold | hnew
            · obtain ⟨g1, g2, g3, g4⟩ := inv.doors.2 _ _ hold
              exact ⟨g1, g2, g3, cmono _ _ g4⟩
            · have hdd : d2 = d := List.mem_singleton.mp hnew
              subst hdd
              refine ⟨hyx.1, hd4, ?_, ?_⟩
              · rw [← hds]; exact hgn
              · rw [← hds, cvaln, ho]
                exact List.mem_append_right _ (List.mem_singleton.mpr rfl)
          · by_cases h2 : c = (ny, nx)
            · subst h2
              rw [cvaln, hcellsnil, List.nil_append] at hd2
              have hdo : d2 = o := List.mem_singleton.mp hd2
              have hback : dstep (ny, nx) o = (y, x) := by
                rw [ho, hds]
                exact dstep_oppd _ hd4
              rw [hdo]
              refine ⟨hgn, ?_, ?_, ?_⟩
              · rw [ho]; exact oppd_lt hd4
              · rw [hback]; exact hyx.1
              · rw [hback, cval, ho, oppd_oppd hd4]
                exact List.mem_append_right _ (List.mem_singleton.mpr rfl)
            · rw [cother c h1 h2] at hd2
              obtain ⟨g1, g2, g3, g4⟩ := inv.doors.2 _ _ hd2
              exact ⟨g1, g2, g3, cmono _ _ g4⟩
      · intro c d2 hd2
        by_cases h1 : c = (y, x)
        · subst h1
          rw [cval] at hd2
          rcases List.mem_append.mp hd2 with hold | hnew
          · obtain ⟨g1, g2⟩ := inv.doorVis _ _ hold
            exact ⟨vmono _ g1, vmono _ g2⟩
          · have hdd : d2 = d := List.mem_singleton.mp hnew
            subst hdd
            refine ⟨vmono _ hyx.2, ?_⟩
            rw [← hds]
            exact vself
        · by_cases h2 : c = (ny, nx)
          · subst h2
            rw [cvaln, hcellsnil, List.nil_append] at hd2
            have hdo : d2 = o := List.mem_singleton.mp hd2
            have hback : dstep (ny, nx) o = (y, x) := by
              rw [ho, hds]
              exact dstep_oppd _ hd4
            rw [hdo]
            refine ⟨vself, ?_⟩
            rw [hback]
            exact vmono _ hyx.2
          · rw [cother c h1 h2] at hd2
            obtain ⟨g1, g2⟩ := inv.doorVis _ _ hd2
            exact ⟨vmono _ g1, vmono _ g2⟩

lemma genLoop_succ_nil {w h n : Nat} {s : GenSt} (hst : s.stack = []) :
    genLoop w h (n + 1) s = s := by
  unfold genLoop
  rw [hst]

lemma genLoop_succ_cons {w h n : Nat} {s : GenSt} {c : Int × Int} {l : List (Int × Int)}
    (hst : s.stack = c :: l) :
    genLoop w h (n + 1) s = genLoop w h n (genStep w h s) := by
  conv_lhs => rw [genLoop, hst]

lemma genLoop_inv {w h : Nat} :
    ∀ (n : Nat) (s : GenSt), LoopInv w h s → LoopInv w h (genLoop w h n s)
  | 0, s, inv => inv
  | n + 1, s, inv => by
    cases hst : s.stack with
    | nil => rw [genLoop_succ_nil hst]; exact inv
    | cons c l =>
      rw [genLoop_succ_cons hst]
      exact genLoop_inv n _ (genStep_inv inv)

lemma genLoop_stack_empty {w h : Nat} :
    ∀ (n : Nat) (s : GenSt), genMeasure w h s ≤ n → (genLoop w h n s).stack = []
  | 0, s, hle => by
    have : s.stack.length = 0 := by
      have := hle
      simp only [genMeasure] at this
      omega
    simpa [genLoop] using List.length_eq_zero.mp this
  | n + 1, s, hle => by
    cases hst : s.stack with
    | nil => rw [genLoop_succ_nil hst]; exact hst
    | cons c l =>
      rw [genLoop_succ_cons hst]
      refine genLoop_stack_empty n _ ?_
      have hlt : genMeasure w h (genStep w h s) < genMeasure w h s :=
        genStep_measure (by rw [hst]; simp)
      omega

lemma initSt_measure {w h : Nat} (g : RNG) :
    genMeasure w h (initSt g) ≤ 2 * w * h + 1 := by
  have hcard : ((gridF w h).filter (fun c => (initSt g).visited c = false)).card ≤
      (gridF w h).card := Finset.card_filter_le _ _
  have hgcard : (gridF w h).card = h * w := by
    simp [gridF, Finset.card_product, Int.card_Ico]
  have hstack : (initSt g).stack.length = 1 := by simp [initSt]
  simp only [genMeasure, unvisCard, hstack]
  rw [hgcard] at hcard
  have h2 : 2 * ((gridF w h).filter (fun c => (initSt g).visited c = false)).card ≤
      2 * (h * w) := by omega
  calc 2 * ((gridF w h).filter (fun c => (initSt g).visited c = false)).card + 1
      ≤ 2 * (h * w) + 1 := by omega
    _ = 2 * w * h + 1 := by ring

/-- The final state of the DFS spanning-tree loop. -/
def loopResult (w h : Nat) (g : RNG) : GenSt :=
  genLoop w h (2 * w * h + 1) (initSt g)

lemma loopResult_stack (w h : Nat) (g : RNG) : (loopResult w h g).stack = [] :=
  genLoop_stack_empty _ _ (initSt_measure g)

lemma loopResult_inv {w h : Nat} (g : RNG) (hw : 1 ≤ w) (hh : 1 ≤ h) :
    LoopInv w h (loopResult w h g) :=
  genLoop_inv _ _ (initSt_inv g hw hh)

lemma loopResult_all_visited {w h : Nat} (g : RNG) (hw : 1 ≤ w) (hh : 1 ≤ h) :
    ∀ c, inGrid w h c → (loopResult w h g).visited c = true := by
  have inv := loopResult_inv g hw hh
  have hst := loopResult_stack w h g
  have hcl : ∀ c, (loopResult w h g).visited c = true →
      ∀ d, d < 4 → inGrid w h (dstep c d) →
        (loopResult w h g).visited (dstep c d) = true := by
    intro c hc
    exact inv.closed c hc (by simp [hst])
  have col : ∀ i : Nat, i < h → (loopResult w h g).visited ((i : Int), 0) = true := by
    intro i
    induction i with
    | zero => intro _; simpa using inv.origin
    | succ i ih =>
      intro hi
      have h1 := ih (by omega)
      have h2 := hcl _ h1 1 (by norm_num) (by rw [dstep1, inGrid_mk]; omega)
      rw [dstep1] at h2
      have he : ((i : Int) + 1, (0 : Int)) = (((i + 1 : Nat) : Int), (0 : Int)) := by
        rw [Prod.mk.injEq]
        constructor
        · push_cast; ring
        · rfl
      rw [he] at h2
      exact h2
  have row : ∀ i : Nat, i < h → ∀ j : Nat, j < w →
      (loopResult w h g).visited ((i : Int), (j : Int)) = true := by
    intro i hi j
    induction j with
    | zero => intro _; simpa using col i hi
    | succ j ih =>
      intro hj
      have h1 := ih (by omega)
      have h2 := hcl _ h1 2 (by norm_num) (by rw [dstep2, inGrid_mk]; omega)
      rw [dstep2] at h2
      have he : ((i : Int), (j : Int) + 1) = (((i : Nat) : Int), ((j + 1 : Nat) : Int)) := by
        rw [Prod.mk.injEq]
        constructor
        · rfl
        · push_cast; ring
      rw [he] at h2
      exact h2
  intro c hc
  obtain ⟨y, x⟩ := c
  rw [inGrid_mk] at hc
  have hy : y = ((y.toNat : Nat) : Int) := by omega
  have hx : x = ((x.toNat : Nat) : Int) := by omega
  rw [hy, hx]
  exact row y.toNat (by omega) x.toNat (by omega)

/-! ### The densification pass -/

lemma mem_densPossible {w h : Nat} {cs : Cells} {y x ny nx : Int} {d o : Nat}
    (hm : ((ny, nx, d, o) : Int × Int × Nat × Nat) ∈ densPossible w h cs (y, x)) :
    inGrid w h (ny, nx) ∧ d ∉ cs (y, x) ∧ d < 4 ∧ o = oppd d ∧
      ((ny, nx) : Int × Int) = dstep (y, x) d := by
  simp only [densPossible, List.mem_filterMap] at hm
  rcases hm with ⟨a, ha, hfa⟩
  simp only [directions, List.mem_cons, List.not_mem_nil, or_false] at ha
  rcases ha with rfl | rfl | rfl | rfl <;>
    · split_ifs at hfa with hc
      simp only [Option.some.injEq, Prod.mk.injEq] at hfa
      obtain ⟨h1, h2, h3, h4⟩ := hfa
      subst h1; subst h2; subst h3; subst h4
      refine ⟨hc.1, hc.2, by norm_num, rfl, ?_⟩
      simp only [dstep0, dstep1, dstep2, dstep3, Prod.mk.injEq]
      constructor <;> ring

lemma densPossible_pairwise (w h : Nat) (cs : Cells) (yx : Int × Int) :
    (densPossible w h cs yx).Pairwise fun t t2 => t.2.2.1 ≠ t2.2.2.1 := by
  refine List.Pairwise.filterMap _ ?_ (show directions.Pairwise
    (fun t t2 => t.2.2.1 ≠ t2.2.2.1) by decide)
  intro a a2 hne b hb b2 hb2
  have e1 : b.2.2.1 = a.2.2.1 := by
    simp only [Option.mem_def] at hb
    split_ifs at hb
    simp only [Option.some.injEq] at hb
    rw [← hb]
  have e2 : b2.2.2.1 = a2.2.2.1 := by
    simp only [Option.mem_def] at hb2
    split_ifs at hb2
    simp only [Option.some.injEq] at hb2
    rw [← hb2]
  rw [e1, e2]
  exact hne

lemma densPossible_mem0 {w h : Nat} {cs : Cells} {y x : Int}
    (hg : inGrid w h (y - 1, x)) (hn : (0 : Nat) ∉ cs (y, x)) :
    ((y - 1, x, 0, 1) : Int × Int × Nat × Nat) ∈ densPossible w h cs (y, x) := by
  refine List.mem_filterMap.mpr ⟨((-1 : Int), (0 : Int), 0, 1), by simp [directions], ?_⟩
  rw [show (y : Int) + -1 = y - 1 by ring, show (x : Int) + 0 = x by ring,
    if_pos ⟨hg, hn⟩]

lemma densPossible_mem1 {w h : Nat} {cs : Cells} {y x : Int}
    (hg : inGrid w h (y + 1, x)) (hn : (1 : Nat) ∉ cs (y, x)) :
    ((y + 1, x, 1, 0) : Int × Int × Nat × Nat) ∈ densPossible w h cs (y, x) := by
  refine List.mem_filterMap.mpr ⟨((1 : Int), (0 : Int), 1, 0), by simp [directions], ?_⟩
  rw [show (x : Int) + 0 = x by ring, if_pos ⟨hg, hn⟩]

lemma densPossible_mem2 {w h : Nat} {cs : Cells} {y x : Int}
    (hg : inGrid w h (y, x + 1)) (hn : (2 : Nat) ∉ cs (y, x)) :
    ((y, x + 1, 2, 3) : Int × Int × Nat × Nat) ∈ densPossible w h cs (y, x) := by
  refine List.mem_filterMap.mpr ⟨((0 : Int), (1 : Int), 2, 3), by simp [directions], ?_⟩
  rw [show (y : Int) + 0 = y by ring, if_pos ⟨hg, hn⟩]

lemma densPossible_mem3 {w h : Nat} {cs : Cells} {y x : Int}
    (hg : inGrid w h (y, x - 1)) (hn : (3 : Nat) ∉ cs (y, x)) :
    ((y, x - 1, 3, 2) : Int × Int × Nat × Nat) ∈ densPossible w h cs (y, x) := by
  refine List.mem_filterMap.mpr ⟨((0 : Int), (-1 : Int), 3, 2), by simp [directions], ?_⟩
  rw [show (y : Int) + 0 = y by ring, show (x : Int) + -1 = x - 1 by ring,
    if_pos ⟨hg, hn⟩]

lemma two_mem_length {α : Type} [DecidableEq α] {l : List α} {a b : α}
    (ha : a ∈ l) (hb : b ∈ l) (hab : a ≠ b) : 2 ≤ l.length := by
  have h1 : ({a, b} : Finset α) ⊆ l.toFinset := by
    intro c hc
    rcases Finset.mem_insert.mp hc with rfl | hc
    · exact List.mem_toFinset.mpr ha
    · rw [Finset.mem_singleton] at hc
      subst hc
      exact List.mem_toFinset.mpr hb
  have h2 := Finset.card_le_card h1
  rw [Finset.card_pair hab] at h2
  exact h2.trans (List.toFinset_card_le l)

/-- In a grid of size at least 2x2, the `possible_adds` list of an in-grid
cell can always raise its degree to 2. -/
lemma densPossible_len {w h : Nat} {cs : Cells} {y x : Int} (hw : 2 ≤ w) (hh : 2 ≤ h)
    (hg : inGrid w h (y, x)) :
    2 - (cs (y, x)).length ≤ (densPossible w h cs (y, x)).length := by
  rcases Nat.lt_or_ge (cs (y, x)).length 2 with hlt | hge
  · have vert : inGrid w h (y + 1, x) ∨ inGrid w h (y - 1, x) := by
      rw [inGrid_mk] at hg ⊢
      rw [inGrid_mk]
      omega
    have horiz : inGrid w h (y, x + 1) ∨ inGrid w h (y, x - 1) := by
      rw [inGrid_mk] at hg ⊢
      rw [inGrid_mk]
      omega
    interval_cases hlen : (cs (y, x)).length
    · have hnil : cs (y, x) = [] := List.length_eq_zero.mp hlen
      have hv : ∃ tv : Int × Int × Nat × Nat,
          tv ∈ densPossible w h cs (y, x) ∧ (tv.2.2.1 = 0 ∨ tv.2.2.1 = 1) := by
        rcases vert with hg1 | hg0
        · exact ⟨_, densPossible_mem1 hg1 (by simp [hnil]), Or.inr rfl⟩
        · exact ⟨_, densPossible_mem0 hg0 (by simp [hnil]), Or.inl rfl⟩
      have hz : ∃ th : Int × Int × Nat × Nat,
          th ∈ densPossible w h cs (y, x) ∧ (th.2.2.1 = 2 ∨ th.2.2.1 = 3) := by
        rcases horiz with hg2 | hg3
        · exact ⟨_, densPossible_mem2 hg2 (by simp [hnil]), Or.inl rfl⟩
        · exact ⟨_, densPossible_mem3 hg3 (by simp [hnil]), Or.inr rfl⟩
      obtain ⟨tv, hvm, hvd⟩ := hv
      obtain ⟨th, hhm, hhd⟩ := hz
      have hne : tv ≠ th := by
        intro he
        rw [he] at hvd
        omega
      exact two_mem_length hvm hhm hne
    · obtain ⟨d0, hd0⟩ := List.length_eq_one.mp hlen
      have hmem : ∃ t : Int × Int × Nat × Nat, t ∈ densPossible w h cs (y, x) := by
        by_cases h01 : d0 = 0 ∨ d0 = 1
        · rcases horiz with hg2 | hg3
          · exact ⟨_, densPossible_mem2 hg2 (by simp [hd0]; omega)⟩
          · exact ⟨_, densPossible_mem3 hg3 (by simp [hd0]; omega)⟩
        · rcases vert with hg1 | hg0
          · exact ⟨_, densPossible_mem1 hg1 (by simp [hd0]; omega)⟩
          · exact ⟨_, densPossible_mem0 hg0 (by simp [hd0]; omega)⟩
      obtain ⟨t, ht⟩ := hmem
      have := List.length_pos.mpr (List.ne_nil_of_mem ht)
      omega
  · omega

lemma addDoor_self (cs : Cells) (c : Int × Int) (d : Nat) :
    addDoor cs c d c = cs c ++ [d] := by
  simp [addDoor, updF]

lemma addDoor_other (cs : Cells) (c : Int × Int) (d : Nat) (c2 : Int × Int)
    (hne : c2 ≠ c) : addDoor cs c d c2 = cs c2 := by
  simp [addDoor, updF, hne]

lemma addDoor_ext (cs : Cells) (c : Int × Int) (d : Nat) (c2 : Int × Int) :
    ∃ e, addDoor cs c d c2 = cs c2 ++ e := by
  by_cases hne : c2 = c
  · subst hne
    exact ⟨[d], addDoor_self _ _ _⟩
  · exact ⟨[], by rw [addDoor_other _ _ _ _ hne, List.append_nil]⟩

lemma addDoor_mem_mono {cs : Cells} {c2 : Int × Int} {d2 : Nat} (c : Int × Int) (d : Nat)
    (hm : d2 ∈ cs c2) : d2 ∈ addDoor cs c d c2 := by
  obtain ⟨e, he⟩ := addDoor_ext cs c d c2
  rw [he]
  exact List.mem_append_left _ hm

/-- Adding one bidirectional door pair preserves the door invariant. -/
lemma pair_doorinv {w h : Nat} {cs : Cells} {yx : Int × Int} {d o : Nat}
    (inv : DoorInv w h cs) (hgyx : inGrid w h yx) (hd4 : d < 4) (ho : o = oppd d)
    (hgn : inGrid w h (dstep yx d)) (hdnotin : d ∉ cs yx) :
    DoorInv w h (addDoor (addDoor cs yx d) (dstep yx d) o) := by
  have hne : yx ≠ dstep yx d := (dstep_ne yx hd4).symm
  have honotin : o ∉ cs (dstep yx d) := by
    intro hmem
    have h2 := (inv.2 _ _ hmem).2.2.2
    rw [ho, dstep_oppd _ hd4, oppd_oppd hd4] at h2
    exact hdnotin h2
  have cval : addDoor (addDoor cs yx d) (dstep yx d) o yx = cs yx ++ [d] := by
    rw [addDoor_other _ _ _ _ hne, addDoor_self]
  have cvaln : addDoor (addDoor cs yx d) (dstep yx d) o (dstep yx d) =
      cs (dstep yx d) ++ [o] := by
    rw [addDoor_self, addDoor_other _ _ _ _ (dstep_ne yx hd4)]
  have cother : ∀ c : Int × Int, c ≠ yx → c ≠ dstep yx d →
      addDoor (addDoor cs yx d) (dstep yx d) o c = cs c := by
    intro c h1 h2
    rw [addDoor_other _ _ _ _ h2, addDoor_other _ _ _ _ h1]
  have cmono : ∀ (c : Int × Int) (d2 : Nat), d2 ∈ cs c →
      d2 ∈ addDoor (addDoor cs yx d) (dstep yx d) o c :=
    fun c d2 hm => addDoor_mem_mono _ _ (addDoor_mem_mono _ _ hm)
  constructor
  · intro c
    by_cases h1 : c = yx
    · subst h1
      rw [cval]
      exact nodup_append_one (inv.1 _) hdnotin
    · by_cases h2 : c = dstep yx d
      · subst h2
        rw [cvaln]
        exact nodup_append_one (inv.1 _) honotin
      · rw [cother c h1 h2]
        exact inv.1 c
  · intro c d2 hd2
    by_cases h1 : c = yx
    · subst h1
      rw [cval] at hd2
      rcases List.mem_append.mp hd2 with hold | hnew
      · obtain ⟨g1, g2, g3, g4⟩ := inv.2 _ _ hold
        exact ⟨g1, g2, g3, cmono _ _ g4⟩
      · have hdd : d2 = d := List.mem_singleton.mp hnew
        subst hdd
        refine ⟨hgyx, hd4, hgn, ?_⟩
        rw [cvaln, ho]
        exact List.mem_append_right _ (List.mem_singleton.mpr rfl)
    · by_cases h2 : c = dstep yx d
      · subst h2
        rw [cvaln] at hd2
        rcases List.mem_append.mp hd2 with hold | hnew
        · obtain ⟨g1, g2, g3, g4⟩ := inv.2 _ _ hold
          exact ⟨g1, g2, g3, cmono _ _ g4⟩
        · have hdo : d2 = o := List.mem_singleton.mp hnew
          have hback : dstep (dstep yx d) o = yx := by
            rw [ho]
            exact dstep_oppd _ hd4
          rw [hdo]
          refine ⟨hgn, ?_, ?_, ?_⟩
          · rw [ho]; exact oppd_lt hd4
          · rw [hback]; exact hgyx
          · rw [hback, cval, ho, oppd_oppd hd4]
            exact List.mem_append_right _ (List.mem_singleton.mpr rfl)
      · rw [cother c h1 h2] at hd2
        obtain ⟨g1, g2, g3, g4⟩ := inv.2 _ _ hd2
        exact ⟨g1, g2, g3, cmono _ _ g4⟩

lemma pair_at_yx (cs : Cells) {yx : Int × Int} {d : Nat} (o : Nat) (hd4 : d < 4) :
    addDoor (addDoor cs yx d) (dstep yx d) o yx = cs yx ++ [d] := by
  rw [addDoor_other _ _ _ _ (dstep_ne yx hd4).symm, addDoor_self]

lemma addPairs_nil (yx : Int × Int) (cs : Cells) : addPairs yx cs [] = cs := rfl

lemma addPairs_cons (yx : Int × Int) (cs : Cells) (t : Int × Int × Nat × Nat)
    (ts : List (Int × Int × Nat × Nat)) :
    addPairs yx cs (t :: ts) =
      addPairs yx (addDoor (addDoor cs yx t.2.2.1) (t.1, t.2.1) t.2.2.2) ts := rfl

lemma addPairs_ext (yx : Int × Int) :
    ∀ (l : List (Int × Int × Nat × Nat)) (cs : Cells) (c : Int × Int),
      ∃ e, addPairs yx cs l c = cs c ++ e
  | [], cs, c => ⟨[], by rw [addPairs_nil, List.append_nil]⟩
  | t :: ts, cs, c => by
    obtain ⟨e1, he1⟩ := addDoor_ext cs yx t.2.2.1 c
    obtain ⟨e2, he2⟩ := addDoor_ext (addDoor cs yx t.2.2.1) (t.1, t.2.1) t.2.2.2 c
    obtain ⟨e3, he3⟩ := addPairs_ext yx ts (addDoor (addDoor cs yx t.2.2.1) (t.1, t.2.1) t.2.2.2) c
    refine ⟨e1 ++ e2 ++ e3, ?_⟩
    rw [addPairs_cons, he3, he2, he1]
    simp [List.append_assoc]

/-- The densification inner loop preserves the door invariant and appends
exactly one door per processed pair to the cell being densified. -/
lemma addPairs_doorinv {w h : Nat} {yx : Int × Int} (hgyx : inGrid w h yx) :
    ∀ (l : List (Int × Int × Nat × Nat)) (cs : Cells),
      DoorInv w h cs →
      (∀ t ∈ l, t.2.2.1 < 4 ∧ t.2.2.2 = oppd t.2.2.1 ∧
        ((t.1, t.2.1) : Int × Int) = dstep yx t.2.2.1 ∧
        inGrid w h ((t.1, t.2.1) : Int × Int) ∧ t.2.2.1 ∉ cs yx) →
      (l.Pairwise fun t t2 => t.2.2.1 ≠ t2.2.2.1) →
      DoorInv w h (addPairs yx cs l) ∧
        (addPairs yx cs l yx).length = (cs yx).length + l.length
  | [], cs, inv, _, _ => ⟨inv, by rw [addPairs_nil]; simp⟩
  | t :: ts, cs, inv, hl, hpw => by
    obtain ⟨hd4, ho, hds, hgn, hdnotin⟩ := hl t (List.mem_cons_self _ _)
    have hpair : DoorInv w h (addDoor (addDoor cs yx t.2.2.1) (t.1, t.2.1) t.2.2.2) := by
      rw [show ((t.1, t.2.1) : Int × Int) = dstep yx t.2.2.1 from hds]
      exact pair_doorinv inv hgyx hd4 ho (hds ▸ hgn) hdnotin
    have hat : addDoor (addDoor cs yx t.2.2.1) (t.1, t.2.1) t.2.2.2 yx =
        cs yx ++ [t.2.2.1] := by
      rw [show ((t.1, t.2.1) : Int × Int) = dstep yx t.2.2.1 from hds]
      exact pair_at_yx cs _ hd4
    have hts : ∀ t2 ∈ ts, t2.2.2.1 < 4 ∧ t2.2.2.2 = oppd t2.2.2.1 ∧
        ((t2.1, t2.2.1) : Int × Int) = dstep yx t2.2.2.1 ∧
        inGrid w h ((t2.1, t2.2.1) : Int × Int) ∧
        t2.2.2.1 ∉ addDoor (addDoor cs yx t.2.2.1) (t.1, t.2.1) t.2.2.2 yx := by
      intro t2 ht2
      obtain ⟨g1, g2, g3, g4, g5⟩ := hl t2 (List.mem_cons_of_mem _ ht2)
      refine ⟨g1, g2, g3, g4, ?_⟩
      rw [hat]
      simp only [List.mem_append, List.mem_singleton]
      rintro (hm | hm)
      · exact g5 hm
      · exact (List.rel_of_pairwise_cons hpw ht2) hm.symm
    have ih := addPairs_doorinv hgyx ts _ hpair hts (List.Pairwise.of_cons hpw)
    rw [addPairs_cons]
    refine ⟨ih.1, ?_⟩
    rw [ih.2, hat]
    simp [List.length_append]
    omega

lemma densifyCell_main {w h : Nat} (st : Cells × RNG) {yx : Int × Int}
    (hgyx : inGrid w h yx) (inv : DoorInv w h st.1) :
    DoorInv w h (densifyCell w h st yx).1 ∧
      (∀ c, ∃ e, (densifyCell w h st yx).1 c = st.1 c ++ e) ∧
      (2 ≤ w → 2 ≤ h → 2 ≤ ((densifyCell w h st yx).1 yx).length) := by
  by_cases hdeg : (st.1 yx).length < 4
  · have heq : (densifyCell w h st yx).1 = addPairs yx st.1
        ((shuffle (densPossible w h st.1 yx) st.2).1.take
          (min (2 - (st.1 yx).length) (shuffle (densPossible w h st.1 yx) st.2).1.length)) := by
      simp [densifyCell, hdeg]
    obtain ⟨y, x⟩ := yx
    have hperm := shuffle_perm (densPossible w h st.1 (y, x)) st.2
    have hmemL : ∀ t ∈ (shuffle (densPossible w h st.1 (y, x)) st.2).1.take
        (min (2 - (st.1 (y, x)).length)
          (shuffle (densPossible w h st.1 (y, x)) st.2).1.length),
        t ∈ densPossible w h st.1 (y, x) := by
      intro t ht
      exact hperm.subset (List.mem_of_mem_take ht)
    have hconds : ∀ t ∈ (shuffle (densPossible w h st.1 (y, x)) st.2).1.take
        (min (2 - (st.1 (y, x)).length)
          (shuffle (densPossible w h st.1 (y, x)) st.2).1.length),
        t.2.2.1 < 4 ∧ t.2.2.2 = oppd t.2.2.1 ∧
        ((t.1, t.2.1) : Int × Int) = dstep (y, x) t.2.2.1 ∧
        inGrid w h ((t.1, t.2.1) : Int × Int) ∧ t.2.2.1 ∉ st.1 (y, x) := by
      intro t ht
      obtain ⟨ny, nx, d, o⟩ := t
      obtain ⟨g1, g2, g3, g4, g5⟩ := mem_densPossible (hmemL _ ht)
      exact ⟨g3, g4, g5, g1, g2⟩
    have hpw : ((shuffle (densPossible w h st.1 (y, x)) st.2).1.take
        (min (2 - (st.1 (y, x)).length)
          (shuffle (densPossible w h st.1 (y, x)) st.2).1.length)).Pairwise
        fun t t2 => t.2.2.1 ≠ t2.2.2.1 := by
      refine List.Pairwise.sublist (List.take_sublist _ _) ?_
      refine (hperm.pairwise_iff ?_).mpr (densPossible_pairwise w h st.1 (y, x))
      intro a b hab
      exact hab.symm
    obtain ⟨hinv2, hlen2⟩ := addPairs_doorinv hgyx _ st.1 inv hconds hpw
    refine ⟨by rw [heq]; exact hinv2, fun c => by rw [heq]; exact addPairs_ext _ _ _ c, ?_⟩
    intro hw2 hh2
    rw [heq, hlen2, List.length_take]
    have hple := @densPossible_len w h st.1 y x hw2 hh2 hgyx
    have hsl : (shuffle (densPossible w h st.1 (y, x)) st.2).1.length =
        (densPossible w h st.1 (y, x)).length := hperm.length_eq
    rw [hsl]
    omega
  · have heq : densifyCell w h st yx = st := by
      simp [densifyCell, hdeg]
    rw [heq]
    exact ⟨inv, fun c => ⟨[], by simp⟩, fun _ _ => by omega⟩

lemma densify_fold {w h : Nat} :
    ∀ (L : List (Int × Int)) (st : Cells × RNG),
      (∀ c ∈ L, inGrid w h c) → DoorInv w h st.1 →
      DoorInv w h (L.foldl (densifyCell w h) st).1 ∧
      (∀ c, ∃ e, (L.foldl (densifyCell w h) st).1 c = st.1 c ++ e) ∧
      (2 ≤ w → 2 ≤ h → ∀ c, c ∈ L ∨ 2 ≤ (st.1 c).length →
        2 ≤ ((L.foldl (densifyCell w h) st).1 c).length)
  | [], st, _, inv => ⟨inv, fun c => ⟨[], by simp⟩, fun _ _ c hc => by
      rcases hc with hc | hc
      · exact absurd hc (List.not_mem_nil c)
      · simpa using hc⟩
  | a :: L, st, hgrid, inv => by
    have hga : inGrid w h a := hgrid a (List.mem_cons_self _ _)
    obtain ⟨inv2, ext2, deg2⟩ := densifyCell_main st hga inv
    have ih := densify_fold L (densifyCell w h st a)
      (fun c hc => hgrid c (List.mem_cons_of_mem _ hc)) inv2
    rw [List.foldl_cons]
    refine ⟨ih.1, ?_, ?_⟩
    · intro c
      obtain ⟨e1, he1⟩ := ext2 c
      obtain ⟨e2, he2⟩ := ih.2.1 c
      exact ⟨e1 ++ e2, by rw [he2, he1, List.append_assoc]⟩
    · intro hw2 hh2 c hc
      rcases hc with hc | hc
      · rcases List.mem_cons.mp hc with rfl | hc2
        · exact ih.2.2 hw2 hh2 c (Or.inr (deg2 hw2 hh2))
        · exact ih.2.2 hw2 hh2 c (Or.inl hc2)
      · refine ih.2.2 hw2 hh2 c (Or.inr ?_)
        obtain ⟨e1, he1⟩ := ext2 c
        rw [he1, List.length_append]
        omega

lemma mem_cellList {w h : Nat} {c : Int × Int} : c ∈ cellList w h ↔ inGrid w h c := by
  obtain ⟨y, x⟩ := c
  constructor
  · intro hc
    rcases List.mem_flatMap.mp hc with ⟨a, ha, hmem⟩
    rcases List.mem_map.mp hmem with ⟨b, hb, he⟩
    rw [List.mem_range] at ha hb
    rw [Prod.mk.injEq] at he
    obtain ⟨h1, h2⟩ := he
    rw [inGrid_mk]
    omega
  · intro hc
    rw [inGrid_mk] at hc
    refine List.mem_flatMap.mpr ⟨y.toNat, List.mem_range.mpr (by omega), ?_⟩
    refine List.mem_map.mpr ⟨x.toNat, List.mem_range.mpr (by omega), ?_⟩
    rw [Prod.mk.injEq]
    constructor <;> omega

lemma length_le_four {l : List Nat} (hn : l.Nodup) (hlt : ∀ d ∈ l, d < 4) :
    l.length ≤ 4 := by
  have hsub : l.toFinset ⊆ Finset.range 4 := by
    intro d hd
    exact Finset.mem_range.mpr (hlt d (List.mem_toFinset.mp hd))
  have h1 := Finset.card_le_card hsub
  rw [Finset.card_range] at h1
  rw [← List.toFinset_card_of_nodup hn]
  exact h1

lemma densify_eq (w h : Nat) (cs : Cells) (g : RNG) :
    densify w h cs g = (cellList w h).foldl (densifyCell w h) (cs, g) := rfl

lemma generate_eq (w h : Nat) (g : RNG) :
    generate_maze w h g =
      densify w h (loopResult w h g).cells (loopResult w h g).g := rfl

/-- Combined facts about `generate_maze`: the door invariant holds, the doors
of the spanning-tree phase survive, and in a grid of size at least 2x2 every
in-grid cell ends with at least two doors. -/
lemma generate_main {w h : Nat} (g : RNG) (hw : 1 ≤ w) (hh : 1 ≤ h) :
    DoorInv w h (generate_maze w h g).1 ∧
      (∀ c, ∃ e, (generate_maze w h g).1 c = (loopResult w h g).cells c ++ e) ∧
      (2 ≤ w → 2 ≤ h → ∀ c, inGrid w h c →
        2 ≤ ((generate_maze w h g).1 c).length) := by
  have inv := loopResult_inv g hw hh
  have hfold := densify_fold (cellList w h)
    ((loopResult w h g).cells, (loopResult w h g).g)
    (fun c hc => mem_cellList.mp hc) inv.doors
  rw [generate_eq, densify_eq]
  exact ⟨hfold.1, hfold.2.1,
    fun h2w h2h c hc => hfold.2.2 h2w h2h c (Or.inl (mem_cellList.mpr hc))⟩

/-! ### Claim theorems about the generator -/

/-- C1: for every maze produced by `Maze.generate_maze` with `width ≥ 2` and
`height ≥ 2` (any random stream), every in-grid room is reachable from
`(0,0)` through the carved doors. -/
theorem generate_maze_connected (w h : Nat) (g : RNG) (hw : 2 ≤ w) (hh : 2 ≤ h) :
    ∀ c, inGrid w h c → Reach (generate_maze w h g).1 (0, 0) c := by
  intro c hc
  have hw1 : 1 ≤ w := by omega
  have hh1 : 1 ≤ h := by omega
  have hvis := loopResult_all_visited g hw1 hh1 c hc
  have hre := (loopResult_inv g hw1 hh1).reach c hvis
  refine Reach.mono ?_ hre
  intro c2 d hd
  obtain ⟨e, he⟩ := (generate_main g hw1 hh1).2.1 c2
  rw [he]
  exact List.mem_append_left _ hd

theorem generate_maze_connected_witness :
    inGrid 2 2 ((1 : Int), (1 : Int)) ∧
      Reach (generate_maze 2 2 (fun _ => 1)).1 (0, 0) (1, 1) :=
  ⟨by decide, generate_maze_connected 2 2 (fun _ => 1) (by norm_num) (by norm_num)
    (1, 1) (by decide)⟩

/-- C2: in every maze produced by `Maze.generate_maze` with `width ≥ 2` and
`height ≥ 2`, every in-grid cell's door list has between 2 and 4 doors and
lists each direction at most once. -/
theorem generate_maze_door_count (w h : Nat) (g : RNG) (hw : 2 ≤ w) (hh : 2 ≤ h) :
    ∀ c, inGrid w h c →
      2 ≤ ((generate_maze w h g).1 c).length ∧
        ((generate_maze w h g).1 c).length ≤ 4 ∧
        ((generate_maze w h g).1 c).Nodup := by
  intro c hc
  have hw1 : 1 ≤ w := by omega
  have hh1 : 1 ≤ h := by omega
  obtain ⟨hdi, hext, hdeg⟩ := generate_main g hw1 hh1
  exact ⟨hdeg hw hh c hc,
    length_le_four (hdi.1 c) (fun d hd => (hdi.2 c d hd).2.1), hdi.1 c⟩

theorem generate_maze_door_count_witness :
    inGrid 2 2 ((0 : Int), (0 : Int)) ∧
      (2 ≤ ((generate_maze 2 2 (fun _ => 1)).1 (0, 0)).length ∧
        ((generate_maze 2 2 (fun _ => 1)).1 (0, 0)).length ≤ 4 ∧
        ((generate_maze 2 2 (fun _ => 1)).1 (0, 0)).Nodup) :=
  ⟨by decide, generate_maze_door_count 2 2 (fun _ => 1) (by norm_num) (by norm_num)
    (0, 0) (by decide)⟩

/-- C3: in every maze produced by `Maze.generate_maze` (any positive size),
doors are symmetric: a door `d` of cell `c` leading to the in-bounds
neighbour `dstep c d` has the opposite door on that neighbour, leading back
to `c`. -/
theorem generate_maze_door_symmetry (w h : Nat) (g : RNG) (hw : 1 ≤ w) (hh : 1 ≤ h) :
    ∀ (c : Int × Int) (d : Nat), d ∈ (generate_maze w h g).1 c →
      inGrid w h (dstep c d) →
      oppd d ∈ (generate_maze w h g).1 (dstep c d) ∧
        dstep (dstep c d) (oppd d) = c := by
  intro c d hd hg2
  obtain ⟨hdi, -, -⟩ := generate_main g hw hh
  obtain ⟨-, hd4, -, hsym⟩ := hdi.2 c d hd
  exact ⟨hsym, dstep_oppd c hd4⟩

theorem generate_maze_door_symmetry_witness :
    (2 ∈ (generate_maze 2 2 (fun _ => 1)).1 (0, 0) ∧
      inGrid 2 2 (dstep (0, 0) 2)) ∧
      oppd 2 ∈ (generate_maze 2 2 (fun _ => 1)).1 (dstep (0, 0) 2) ∧
        dstep (dstep ((0 : Int), (0 : Int)) 2) (oppd 2) = (0, 0) :=
  ⟨⟨by decide, by decide⟩, generate_maze_door_symmetry 2 2 (fun _ => 1) (by norm_num)
    (by norm_num) (0, 0) 2 (by decide) (by decide)⟩

/-- Menu priority of a direction name as the spec orders them. -/
def dirPriority (s : String) : Nat :=
  if s = "North" then 0 else if s = "South" then 1 else if s = "East" then 2 else 3

/-- C4 counterexample: on the maze generated from the constant-1 random
stream with the default start cell, `get_neighbors (0,0)` returns East before
South, so the output is not sorted by the North, South, East, West
priority. -/
theorem get_neighbors_not_priority_sorted :
    ¬ ((get_neighbors (Maze.make 2 2 (fun _ => 1)).1 0 0).Pairwise
        fun a b => dirPriority a.1 ≤ dirPriority b.1) := by
  decide

/-- C4 amended: `get_neighbors` returns the cell's doors filtered by the
bounds checks, in the order in which the doors were appended to the cell's
door list (insertion order) — not re-sorted into the North, South, East,
West priority order. -/
theorem get_neighbors_insertion_order (m : Maze) (y x : Int) :
    (get_neighbors m y x).map (fun t => dirPriority t.1) =
      (m.cells (y, x)).filter fun d =>
        decide ((d = 0 ∧ y - 1 ≥ 0) ∨ (d = 1 ∧ y + 1 < (m.height : Int)) ∨
          (d = 2 ∧ x + 1 < (m.width : Int)) ∨ (d = 3 ∧ x - 1 ≥ 0)) := by
  rw [get_neighbors, List.map_filterMap, ← List.filterMap_eq_filter]
  refine List.filterMap_congr ?_
  intro d _
  match d with
  | 0 =>
    by_cases h0 : y - 1 ≥ 0 <;> simp [h0, dirPriority, Option.guard]
  | 1 =>
    by_cases h0 : y + 1 < (m.height : Int) <;> simp [h0, dirPriority, Option.guard]
  | 2 =>
    by_cases h0 : x + 1 < (m.width : Int) <;> simp [h0, dirPriority, Option.guard]
  | 3 =>
    by_cases h0 : x - 1 ≥ 0 <;> simp [h0, dirPriority, Option.guard]
  | (n + 4) =>
    have c0 : ¬((n + 4 : Nat) = 0 ∧ y - 1 ≥ 0) := by rintro ⟨he, -⟩; omega
    have c1 : ¬((n + 4 : Nat) = 1 ∧ y + 1 < (m.height : Int)) := by rintro ⟨he, -⟩; omega
    have c2 : ¬((n + 4 : Nat) = 2 ∧ x + 1 < (m.width : Int)) := by rintro ⟨he, -⟩; omega
    have c3 : ¬((n + 4 : Nat) = 3 ∧ x - 1 ≥ 0) := by rintro ⟨he, -⟩; omega
    simp [c0, c1, c2, c3, Option.guard]

/-! ### The game: narrative tables, player, outcome effects, combat -/

def room_descriptions : List String :=
  ["A dusty chamber holds an old chest, faintly glowing with magic.",
   "A fountain bubbles with enchanted water in this dim room.",
   "Skeletons of fallen warriors are scattered across the floor.",
   "Ancient tomes of forgotten lore line a library’s shelves.",
   "A small altar holds a glowing idol of a forgotten god.",
   "Torchlight flickers on walls etched with arcane runes.",
   "A trapdoor in the ceiling leads to unknown heights.",
   "Glowing mushrooms grow in clusters on the damp floor.",
   "An abandoned campfire smolders, left by recent travelers.",
   "Webs cover everything, hinting at giant spiders nearby.",
   "A mirror reflects your image with a twist of illusion.",
   "Barrels and crates are stacked, possibly hiding treasure.",
   "A fierce dragon statue stands sentinel in the room.",
   "Vines creep along the walls, pulsing with druidic magic.",
   "Dripping water echoes in this cavernous chamber.",
   "Rusty weapons rest on racks, some still sharp.",
   "A puzzle box on a pedestal challenges your wits.",
   "Ghostly whispers of restless spirits fill the air.",
   "Enchanted flowers bloom in a vibrant bed.",
   "Chains dangle from the ceiling, rattling softly.",
   "A map etched into the stone floor hints at dungeon secrets.",
   "Candles burn brightly in a dark ritual circle.",
   "A pile of treasures glints temptingly in the corner.",
   "A deep well descends into abyssal darkness.",
   "Shadows dance as if alive, hiding unseen threats."]

def choices : List String :=
  ["Open the chest?", "Drink from the fountain?", "Disturb the skeletons?",
   "Read a random tome?", "Touch the idol?", "Trace the runes?",
   "Climb to the trapdoor?", "Eat a mushroom?", "Search the campfire ashes?",
   "Clear the webs?", "Stare into the mirror?", "Search the barrels?",
   "Examine the statue?", "Pull the vines?", "Investigate the dripping?",
   "Take a weapon?", "Open the puzzle box?", "Respond to the whispers?",
   "Pick a flower?", "Rattle the chains?", "Study the map?",
   "Blow out the candles?", "Dig into the treasures?",
   "Drop a coin into the well?", "Confront the shadows?"]

def positive_outcomes : List String :=
  ["You find 20 gold pieces!",
   "Your health is restored by 10!",
   "You gain a healing potion!",
   "Your strength increases by 1!",
   "You find a sharp sword!",
   "You gain 50 experience points!",
   "You find a mysterious key!"]

def negative_outcomes : List String :=
  ["It\x27s trapped! Lose 15 health.",
   "Poisoned! Lose 10 health.",
   "Cursed! Lose 10 gold.",
   "A monster attacks! Lose 20 health."]

def even_outcomes : List String := ["Nothing happens."]

def combat_outcomes : List String :=
  ["A goblin leaps from the shadows! Fight?",
   "A skeleton rises to attack! Engage?",
   "A giant rat lunges at you! Battle?",
   "A wraith forms from the shadows! Combat?"]

def combat_gains : List String :=
  ["You gain 30 gold!", "You gain 100 experience!", "You find a potion!"]

/-- `str.strip()` (ASCII whitespace, which covers the inputs involved). -/
def pyStrip (s : String) : String :=
  ⟨((s.data.dropWhile Char.isWhitespace).reverse.dropWhile Char.isWhitespace).reverse⟩

/-- `str.lower()`. -/
def pyLower (s : String) : String := ⟨s.data.map Char.toLower⟩

/-- Python's substring test `sub in s`. -/
def pyContains (s sub : String) : Bool := decide (sub.data <:+: s.data)

/-- Split off the part before the first occurrence of `sep`, with the rest. -/
def breakOn (sep : List Char) : List Char → Option (List Char × List Char)
  | [] => if sep.isPrefixOf ([] : List Char) then some ([], []) else none
  | c :: cs =>
    if sep.isPrefixOf (c :: cs) then some ([], (c :: cs).drop sep.length)
    else
      match breakOn sep cs with
      | none => none
      | some (a, b) => some (c :: a, b)

def splitOnAux (sep : List Char) : Nat → List Char → List (List Char)
  | 0, l => [l]
  | fuel + 1, l =>
    match breakOn sep l with
    | none => [l]
    | some (a, b) => a :: splitOnAux sep fuel b

/-- `str.split(sep)` for a non-empty separator. -/
def pySplit (s sep : String) : List String :=
  (splitOnAux sep.data (s.data.length + 1) s.data).map fun l => ⟨l⟩

/-- `int()` on the digit tokens produced by the outcome texts. -/
def parseNatDigits (l : List Char) : Nat :=
  l.foldl (fun n c => n * 10 + (c.toNat - 48)) 0

/-- `int(outcome.split('Lose ')[1].split(' ')[0])`. -/
def parseLoss (o : String) : Int :=
  (parseNatDigits ((pySplit ((pySplit o "Lose ").getD 1 "") " ").getD 0 "").data : Nat)

structure Player where
  health : Int
  strength : Int
  gold : Int
  experience : Int
  inventory : List String
  position : Int × Int
  previous_door : Option String
deriving DecidableEq

/-- `Player.__init__`. -/
def Player.init : Player :=
  { health := 100, strength := 10, gold := 0, experience := 0, inventory := [],
    position := (0, 0), previous_door := none }

/-- `Player.is_alive`: `health > 0`. -/
def Player.is_alive (p : Player) : Bool := decide (p.health > 0)

/-- Positive-outcome effect dispatch (lines 253-267 of `Mazegame.py`). -/
def applyPositiveOutcome (o : String) (p : Player) : Player :=
  if pyContains o "gold" then { p with gold := p.gold + 20 }
  else if pyContains o "health" then { p with health := p.health + 10 }
  else if pyContains o "potion" then { p with inventory := p.inventory ++ ["Healing Potion"] }
  else if pyContains o "strength" then { p with strength := p.strength + 1 }
  else if pyContains o "sword" then
    { p with inventory := p.inventory ++ ["Sword"], strength := p.strength + 2 }
  else if pyContains o "experience" then { p with experience := p.experience + 50 }
  else if pyContains o "key" then { p with inventory := p.inventory ++ ["Key"] }
  else p

/-- Negative-outcome effect dispatch (lines 271-275 of `Mazegame.py`). -/
def applyNegativeOutcome (o : String) (p : Player) : Player :=
  if pyContains o "health" then { p with health := p.health - parseLoss o }
  else if pyContains o "gold" then { p with gold := max 0 (p.gold - 10) }
  else p

/-- Combat-victory reward dispatch (lines 171-178 of `Mazegame.py`). -/
def applyCombatGain (gain : String) (p : Player) : Player :=
  if pyContains gain "gold" then { p with gold := p.gold + 30 }
  else if pyContains gain "experience" then { p with experience := p.experience + 100 }
  else if pyContains gain "potion" then { p with inventory := p.inventory ++ ["Healing Potion"] }
  else p

/-- The turn loop of `Player.combat`, fuel-indexed; the fuel passed by
`combat` is proved sufficient whenever `strength ≥ 1`. -/
def combatLoop : Nat → Player → Int → Int → RNG → Option (Bool × Player × RNG)
  | 0, _, _, _, _ => none
  | fuel + 1, p, mh, ms, g =>
    if p.health > 0 ∧ mh > 0 then
      let dmg := randint 1 p.strength g
      let mh2 := mh - dmg.1
      if mh2 ≤ 0 then
        let gain := pychoice combat_gains "" dmg.2
        some (true, applyCombatGain gain.1 p, gain.2)
      else
        let dmg2 := randint 1 ms dmg.2
        combatLoop fuel { p with health := p.health - dmg2.1 } mh2 ms dmg2.2
    else if p.health ≤ 0 then some (false, p, g)
    else some (true, p, g)

/-- `Player.combat`: returns `(win?, player, rng)`; `none` only on fuel
exhaustion, which cannot happen for `strength ≥ 1`. -/
def combat (p : Player) (g : RNG) : Option (Bool × Player × RNG) :=
  let mh := randint 20 50 g
  let ms := randint 5 15 mh.2
  combatLoop (mh.1.toNat + 1) p mh.1 ms.1 ms.2

/-! ### The game loop (`play_game`) -/

/-- Abstract output events, one per `print` site of the game loop. -/
inductive Msg where
  | welcome
  | roomDesc (s : String)
  | roomChoice (s : String)
  | invalidYesNo
  | catastrophic
  | combatFlavor (s : String)
  | combatEntered
  | fleeMsg
  | outcomeText (s : String)
  | eofMsg
  | noDoors
  | doorMenu (names : List String)
  | invalidDoor
  | trapDeath
  | escapeMsg
  | congrats
  | gameOverDied
  | finalStats
deriving DecidableEq

def yes_options : List String := ["yes", "y"]

def no_options : List String := ["no", "n"]

/-- Mutable state of one `play_game` session: the player, the `visited` set
(as a list of distinct positions), the remaining input lines, and the random
stream. -/
structure GState where
  player : Player
  visited : List (Int × Int)
  input : List String
  g : RNG

/-- Result of one iteration of the `while player.is_alive()` loop:
`next` continues the loop, `stop` is any `break`. -/
inductive StepRes where
  | next (s : GState) (out : List Msg)
  | stop (s : GState) (out : List Msg)

def StepRes.state : StepRes → GState
  | .next s _ => s
  | .stop s _ => s

def StepRes.out : StepRes → List Msg
  | .next _ o => o
  | .stop _ o => o

def StepRes.isStop : StepRes → Bool
  | .next _ _ => false
  | .stop _ _ => true

/-- The door phase of a turn (lines 282-309 of `Mazegame.py`). -/
def doorPhase (m : Maze) (p : Player) (visited : List (Int × Int))
    (input : List String) (g : RNG) (pre : List Msg) : StepRes :=
  let yx := p.position
  let neighbors := get_neighbors m yx.1 yx.2
  if neighbors = [] then .stop ⟨p, visited, input, g⟩ (pre ++ [.noDoors])
  else
    let door_options := (List.range neighbors.length).map fun i =>
      (toString (i + 1), neighbors.getD i ("", 0, 0))
    let menu := Msg.doorMenu (neighbors.map fun t => t.1)
    match input with
    | [] => .stop ⟨p, visited, [], g⟩ (pre ++ [menu, .eofMsg])
    | c :: rest =>
      let ch := pyStrip c
      match door_options.lookup ch with
      | none => .next ⟨p, visited, rest, g⟩ (pre ++ [menu, .invalidDoor])
      | some t =>
        let droll := randint 1 100 g
        if droll.1 = 1 then
          .stop ⟨{ p with health := 0 }, visited, rest, droll.2⟩
            (pre ++ [menu, .trapDeath])
        else
          .next ⟨{ p with position := (t.2.1, t.2.2), previous_door := some t.1 },
            visited, rest, droll.2⟩ (pre ++ [menu])

/-- The `if not player.is_alive(): break` check after the room event,
followed by the door phase. -/
def afterEvent (m : Maze) (p : Player) (visited : List (Int × Int))
    (input : List String) (g : RNG) (pre : List Msg) : StepRes :=
  if p.is_alive = false then .stop ⟨p, visited, input, g⟩ pre
  else doorPhase m p visited input g pre

/-- The body of the `if decision in yes_options:` block of `play_game`
(lines 223-277): death roll, outcome draw, effect application. -/
def roomEvent (m : Maze) (p : Player) (visited2 : List (Int × Int))
    (rest : List String) (g : RNG) (pre : List Msg) : StepRes :=
  let droll := randint 1 100 g
  if droll.1 = 1 then
    .stop ⟨{ p with health := 0 }, visited2, rest, droll.2⟩ (pre ++ [.catastrophic])
  else
    let rand := randomQ droll.2
    if rand.1 < 1 / 10 then
      let flavor := pychoice combat_outcomes "" rand.2
      match rest with
      | [] =>
        .stop ⟨p, visited2, [], flavor.2⟩ (pre ++ [.combatFlavor flavor.1, .eofMsg])
      | f :: rest2 =>
        let fd := pyLower (pyStrip f)
        if fd ∉ yes_options ++ no_options then
          .next ⟨p, visited2, rest2, flavor.2⟩
            (pre ++ [.combatFlavor flavor.1, .invalidYesNo])
        else if fd ∈ yes_options then
          match combat p flavor.2 with
          | none =>
            .stop ⟨p, visited2, rest2, flavor.2⟩
              (pre ++ [.combatFlavor flavor.1, .combatEntered])
          | some r =>
            if r.1 then
              afterEvent m r.2.1 visited2 rest2 r.2.2
                (pre ++ [.combatFlavor flavor.1, .combatEntered])
            else
              .stop ⟨r.2.1, visited2, rest2, r.2.2⟩
                (pre ++ [.combatFlavor flavor.1, .combatEntered])
        else
          afterEvent m { p with health := p.health - 10 }
            visited2 rest2 flavor.2 (pre ++ [.combatFlavor flavor.1, .fleeMsg])
    else if rand.1 < 3 / 4 then
      let oc := pychoice positive_outcomes "" rand.2
      afterEvent m (applyPositiveOutcome oc.1 p) visited2 rest oc.2
        (pre ++ [.outcomeText oc.1])
    else if rand.1 < 19 / 20 then
      let oc := pychoice negative_outcomes "" rand.2
      afterEvent m (applyNegativeOutcome oc.1 p) visited2 rest oc.2
        (pre ++ [.outcomeText oc.1])
    else
      let oc := pychoice even_outcomes "" rand.2
      afterEvent m p visited2 rest oc.2 (pre ++ [.outcomeText oc.1])

/-- One iteration of the `while player.is_alive()` loop of `play_game`. -/
def step (m : Maze) (s : GState) : StepRes :=
  let yx := s.player.position
  let room_id := yx.1 * (m.width : Int) + yx.2
  if yx = m.exit_room then
    .stop s [.escapeMsg, .finalStats]
  else if yx ∈ s.visited then
    doorPhase m s.player s.visited s.input s.g []
  else
    let visited2 := yx :: s.visited
    let desc := room_descriptions.getD room_id.toNat ""
    let choiceText := choices.getD room_id.toNat ""
    let pre := [Msg.roomDesc desc, Msg.roomChoice choiceText]
    match s.input with
    | [] => .stop ⟨s.player, visited2, [], s.g⟩ (pre ++ [.eofMsg])
    | inp :: rest =>
      let decision := pyLower (pyStrip inp)
      if decision ∉ yes_options ++ no_options then
        .next ⟨s.player, visited2, rest, s.g⟩ (pre ++ [.invalidYesNo])
      else if decision ∈ yes_options then
        roomEvent m s.player visited2 rest s.g pre
      else
        doorPhase m s.player visited2 rest s.g pre

/-- The two prints after the `while` loop of `play_game`. -/
def postlude (p : Player) : List Msg :=
  (if p.is_alive then [Msg.congrats] else [Msg.gameOverDied]) ++ [Msg.finalStats]

/-- The `while player.is_alive()` loop, fuel-indexed; the `Bool` records
whether the session reached its normal end within the fuel. -/
def runAux (m : Maze) : Nat → GState → GState × List Msg × Bool
  | 0, s => (s, [], false)
  | n + 1, s =>
    if s.player.is_alive = true then
      match step m s with
      | .next s2 out =>
        let r := runAux m n s2
        (r.1, out ++ r.2.1, r.2.2)
      | .stop s2 out => (s2, out ++ postlude s2.player, true)
    else (s, postlude s.player, true)

/-- `play_game`: build the default 5x5 maze, then run the session. -/
def play_game (g : RNG) (input : List String) (fuel : Nat) :
    GState × List Msg × Bool :=
  let mk := Maze.make 5 5 g
  let s0 : GState := ⟨Player.init, [], input, mk.2⟩
  let r := runAux mk.1 fuel s0
  (r.1, Msg.welcome :: r.2.1, r.2.2)

/-! ### Steering lemmas for the game loop -/

lemma lookup_mem {α β : Type} [BEq α] :
    ∀ {l : List (α × β)} {k : α} {v : β}, l.lookup k = some v → ∃ p ∈ l, p.2 = v := by
  intro l
  induction l with
  | nil => intro k v h; cases h
  | cons a l ih =>
    intro k v h
    rw [List.lookup] at h
    cases hka : (k == a.1) with
    | true =>
      rw [hka] at h
      simp only [Option.some.injEq] at h
      exact ⟨a, List.mem_cons_self _ _, h⟩
    | false =>
      rw [hka] at h
      obtain ⟨p, hp, he⟩ := ih h
      exact ⟨p, List.mem_cons_of_mem _ hp, he⟩

lemma randBand1 (n : Nat) :
    (((n % 1000000 : Nat) : ℚ) / 1000000 < 1 / 10) ↔ n % 1000000 < 100000 := by
  rw [div_lt_div_iff₀ (by norm_num : (0 : ℚ) < 1000000) (by norm_num : (0 : ℚ) < 10)]
  rw [show ((n % 1000000 : Nat) : ℚ) * 10 = (((n % 1000000) * 10 : Nat) : ℚ) by
      push_cast; ring,
    show (1 : ℚ) * 1000000 = ((1000000 : Nat) : ℚ) by norm_num, Nat.cast_lt]
  omega

lemma randBand34 (n : Nat) :
    (((n % 1000000 : Nat) : ℚ) / 1000000 < 3 / 4) ↔ n % 1000000 < 750000 := by
  rw [div_lt_div_iff₀ (by norm_num : (0 : ℚ) < 1000000) (by norm_num : (0 : ℚ) < 4)]
  rw [show ((n % 1000000 : Nat) : ℚ) * 4 = (((n % 1000000) * 4 : Nat) : ℚ) by
      push_cast; ring,
    show (3 : ℚ) * 1000000 = ((3000000 : Nat) : ℚ) by norm_num, Nat.cast_lt]
  omega

lemma randBand1920 (n : Nat) :
    (((n % 1000000 : Nat) : ℚ) / 1000000 < 19 / 20) ↔ n % 1000000 < 950000 := by
  rw [div_lt_div_iff₀ (by norm_num : (0 : ℚ) < 1000000) (by norm_num : (0 : ℚ) < 20)]
  rw [show ((n % 1000000 : Nat) : ℚ) * 20 = (((n % 1000000) * 20 : Nat) : ℚ) by
      push_cast; ring,
    show (19 : ℚ) * 1000000 = ((19000000 : Nat) : ℚ) by norm_num, Nat.cast_lt]
  omega

lemma step_exit {m : Maze} {s : GState} (hpos : s.player.position = m.exit_room) :
    step m s = .stop s [.escapeMsg, .finalStats] := by
  unfold step
  rw [if_pos hpos]

lemma step_visited {m : Maze} {s : GState} (hpos : s.player.position ≠ m.exit_room)
    (hv : s.player.position ∈ s.visited) :
    step m s = doorPhase m s.player s.visited s.input s.g [] := by
  unfold step
  rw [if_neg hpos, if_pos hv]

lemma step_unvisited_eof {m : Maze} {s : GState} (hpos : s.player.position ≠ m.exit_room)
    (hnv : s.player.position ∉ s.visited) (hin : s.input = []) :
    step m s = .stop ⟨s.player, s.player.position :: s.visited, [], s.g⟩
      [Msg.roomDesc (room_descriptions.getD
          (s.player.position.1 * (m.width : Int) + s.player.position.2).toNat ""),
       Msg.roomChoice (choices.getD
          (s.player.position.1 * (m.width : Int) + s.player.position.2).toNat ""),
       Msg.eofMsg] := by
  unfold step
  rw [if_neg hpos, if_neg hnv, hin]
  rfl

lemma step_unvisited_invalid {m : Maze} {s : GState} {inp : String} {rest : List String}
    (hpos : s.player.position ≠ m.exit_room) (hnv : s.player.position ∉ s.visited)
    (hin : s.input = inp :: rest)
    (hbad : pyLower (pyStrip inp) ∉ yes_options ++ no_options) :
    step m s = .next ⟨s.player, s.player.position :: s.visited, rest, s.g⟩
      [Msg.roomDesc (room_descriptions.getD
          (s.player.position.1 * (m.width : Int) + s.player.position.2).toNat ""),
       Msg.roomChoice (choices.getD
          (s.player.position.1 * (m.width : Int) + s.player.position.2).toNat ""),
       Msg.invalidYesNo] := by
  unfold step
  rw [if_neg hpos, if_neg hnv, hin]
  dsimp only
  rw [if_pos hbad]
  rfl

lemma step_unvisited_yes {m : Maze} {s : GState} {inp : String} {rest : List String}
    (hpos : s.player.position ≠ m.exit_room) (hnv : s.player.position ∉ s.visited)
    (hin : s.input = inp :: rest) (hyes : pyLower (pyStrip inp) ∈ yes_options) :
    step m s = roomEvent m s.player (s.player.position :: s.visited) rest s.g
      [Msg.roomDesc (room_descriptions.getD
          (s.player.position.1 * (m.width : Int) + s.player.position.2).toNat ""),
       Msg.roomChoice (choices.getD
          (s.player.position.1 * (m.width : Int) + s.player.position.2).toNat "")] := by
  unfold step
  rw [if_neg hpos, if_neg hnv, hin]
  dsimp only
  rw [if_neg (not_not_intro (List.mem_append_left _ hyes)), if_pos hyes]

lemma doorPhase_eof {m : Maze} {p : Player} {v : List (Int × Int)} {g : RNG}
    {pre : List Msg}
    (hnb : get_neighbors m p.position.1 p.position.2 ≠ []) :
    doorPhase m p v [] g pre = .stop ⟨p, v, [], g⟩
      (pre ++ [Msg.doorMenu ((get_neighbors m p.position.1 p.position.2).map fun t => t.1),
        Msg.eofMsg]) := by
  unfold doorPhase
  dsimp only
  rw [if_neg hnb]

lemma roomEvent_negative {m : Maze} {p : Player} {v : List (Int × Int)}
    {rest : List String} {g : RNG} {pre : List Msg}
    (hroll : g 0 % 100 ≠ 0)
    (hlo : 750000 ≤ g 1 % 1000000) (hhi : g 1 % 1000000 < 950000) :
    roomEvent m p v rest g pre =
      afterEvent m (applyNegativeOutcome (negative_outcomes.getD (g 2 % 4) "") p) v rest
        g.tail.tail.tail
        (pre ++ [Msg.outcomeText (negative_outcomes.getD (g 2 % 4) "")]) := by
  unfold roomEvent
  dsimp only
  rw [if_neg (show ¬(randint 1 100 g).1 = 1 by
    show ¬(1 + ((RNG.head g : Nat) : Int) % (100 - 1 + 1)) = 1
    show ¬(1 + ((g 0 : Nat) : Int) % (100 - 1 + 1)) = 1
    omega)]
  rw [if_neg (show ¬(randomQ (randint 1 100 g).2).1 < 1 / 10 by
    show ¬((((g.tail 0 % 1000000 : Nat) : ℚ)) / 1000000 < 1 / 10)
    show ¬((((g 1 % 1000000 : Nat) : ℚ)) / 1000000 < 1 / 10)
    rw [randBand1]
    omega)]
  rw [if_neg (show ¬(randomQ (randint 1 100 g).2).1 < 3 / 4 by
    show ¬((((g 1 % 1000000 : Nat) : ℚ)) / 1000000 < 3 / 4)
    rw [randBand34]
    omega)]
  rw [if_pos (show (randomQ (randint 1 100 g).2).1 < 19 / 20 by
    show (((g 1 % 1000000 : Nat) : ℚ)) / 1000000 < 19 / 20
    rw [randBand1920]
    omega)]
  rfl

lemma roomEvent_combat_eof {m : Maze} {p : Player} {v : List (Int × Int)} {g : RNG}
    {pre : List Msg}
    (hroll : g 0 % 100 ≠ 0) (hlow : g 1 % 1000000 < 100000) :
    roomEvent m p v [] g pre = .stop ⟨p, v, [], g.tail.tail.tail⟩
      (pre ++ [Msg.combatFlavor (combat_outcomes.getD (g 2 % 4) ""), Msg.eofMsg]) := by
  unfold roomEvent
  dsimp only
  rw [if_neg (show ¬(randint 1 100 g).1 = 1 by
    show ¬(1 + ((g 0 : Nat) : Int) % (100 - 1 + 1)) = 1
    omega)]
  rw [if_pos (show (randomQ (randint 1 100 g).2).1 < 1 / 10 by
    show (((g 1 % 1000000 : Nat) : ℚ)) / 1000000 < 1 / 10
    rw [randBand1]
    omega)]
  rfl

lemma doorPhase_no_roomDesc (m : Maze) (p : Player) (v : List (Int × Int))
    (input : List String) (g : RNG) (d : String) :
    Msg.roomDesc d ∉ (doorPhase m p v input g []).out := by
  unfold doorPhase
  dsimp only
  by_cases h1 : get_neighbors m p.position.1 p.position.2 = []
  · rw [if_pos h1]
    simp [StepRes.out]
  · rw [if_neg h1]
    cases input with
    | nil => simp [StepRes.out]
    | cons c rest =>
      dsimp only
      cases hlk : List.lookup (pyStrip c)
          ((List.range (get_neighbors m p.position.1 p.position.2).length).map
            fun i => (toString (i + 1),
              (get_neighbors m p.position.1 p.position.2).getD i ("", 0, 0))) with
      | none => simp [StepRes.out]
      | some t =>
        dsimp only
        by_cases h2 : (randint 1 100 g).1 = 1
        · rw [if_pos h2]
          simp [StepRes.out]
        · rw [if_neg h2]
          simp [StepRes.out]

/-- A concrete 2x2 maze (constant-1 random stream); its exit room is (1,1). -/
def mazeA : Maze := (Maze.make 2 2 (fun _ => 1)).1

/-- A fresh session state whose first input line is invalid. -/
def stA : GState := ⟨Player.init, [], ["maybe"], fun _ => 0⟩

/-- C5 counterexample: with the invalid input "maybe" at the first visit of
(0,0), the visited set does change (the room is marked visited before the
prompt), and the following iteration at the same room prints no description
or choice: it goes straight to the door menu. The claimed behaviour — same
description and choice offered again with no visited-set change — is false. -/
theorem invalid_input_counterexample :
    (step mazeA stA).state.visited ≠ stA.visited ∧
      (step mazeA (step mazeA stA).state).out =
        [Msg.doorMenu ["East", "South"], Msg.eofMsg] := by
  constructor
  · decide
  · decide

/-- C5 amended: invalid room-event input continues the loop with the player
untouched and the input line consumed, but the room was already added to the
visited set before the prompt; any later turn at a visited non-exit room
prints no room description and proceeds directly to the door phase. -/
theorem invalid_input_marks_visited (m : Maze) (s : GState) (inp : String)
    (rest : List String)
    (hpos : s.player.position ≠ m.exit_room)
    (hnv : s.player.position ∉ s.visited)
    (hin : s.input = inp :: rest)
    (hbad : pyLower (pyStrip inp) ∉ yes_options ++ no_options) :
    step m s = .next ⟨s.player, s.player.position :: s.visited, rest, s.g⟩
      [Msg.roomDesc (room_descriptions.getD
          (s.player.position.1 * (m.width : Int) + s.player.position.2).toNat ""),
       Msg.roomChoice (choices.getD
          (s.player.position.1 * (m.width : Int) + s.player.position.2).toNat ""),
       Msg.invalidYesNo] ∧
      ∀ s2 : GState, s2.player.position ∈ s2.visited →
        s2.player.position ≠ m.exit_room →
        ∀ d, Msg.roomDesc d ∉ (step m s2).out := by
  refine ⟨step_unvisited_invalid hpos hnv hin hbad, ?_⟩
  intro s2 hv2 hpos2 d
  rw [step_visited hpos2 hv2]
  exact doorPhase_no_roomDesc m s2.player s2.visited s2.input s2.g d

theorem invalid_input_marks_visited_witness :
    step mazeA stA = .next ⟨stA.player, stA.player.position :: stA.visited, [], stA.g⟩
      [Msg.roomDesc (room_descriptions.getD
          (stA.player.position.1 * (mazeA.width : Int) + stA.player.position.2).toNat ""),
       Msg.roomChoice (choices.getD
          (stA.player.position.1 * (mazeA.width : Int) + stA.player.position.2).toNat ""),
       Msg.invalidYesNo] ∧
      Msg.roomDesc "A dusty chamber holds an old chest, faintly glowing with magic." ∉
        (step mazeA (step mazeA stA).state).out :=
  ⟨(invalid_input_marks_visited mazeA stA "maybe" [] (by decide) (by decide) rfl
      (by decide)).1,
   (invalid_input_marks_visited mazeA stA "maybe" [] (by decide) (by decide) rfl
      (by decide)).2 (step mazeA stA).state (by decide) (by decide) _⟩

/-- C9: whenever the input is exhausted at a prompt — the room-event yes/no
prompt, the door-number prompt of a visited room, or the fight prompt — the
turn ends with a stop whose last message is the end-of-input message and
whose player is exactly the player at the failed read (no further
mutation). -/
theorem eof_prompts_graceful :
    (∀ (m : Maze) (s : GState), s.input = [] →
      s.player.position ≠ m.exit_room → s.player.position ∉ s.visited →
      (step m s).isStop = true ∧ (step m s).state.player = s.player ∧
        (step m s).out.getLast? = some Msg.eofMsg) ∧
    (∀ (m : Maze) (s : GState), s.input = [] →
      s.player.position ≠ m.exit_room → s.player.position ∈ s.visited →
      get_neighbors m s.player.position.1 s.player.position.2 ≠ [] →
      (step m s).isStop = true ∧ (step m s).state.player = s.player ∧
        (step m s).out.getLast? = some Msg.eofMsg) ∧
    (∀ (m : Maze) (s : GState) (inp : String), s.input = [inp] →
      s.player.position ≠ m.exit_room → s.player.position ∉ s.visited →
      pyLower (pyStrip inp) ∈ yes_options →
      s.g 0 % 100 ≠ 0 → s.g 1 % 1000000 < 100000 →
      (step m s).isStop = true ∧ (step m s).state.player = s.player ∧
        (step m s).out.getLast? = some Msg.eofMsg) := by
  refine ⟨?_, ?_, ?_⟩
  · intro m s hin hpos hnv
    rw [step_unvisited_eof hpos hnv hin]
    exact ⟨rfl, rfl, rfl⟩
  · intro m s hin hpos hv hnb
    rw [step_visited hpos hv, hin, doorPhase_eof hnb]
    exact ⟨rfl, rfl, rfl⟩
  · intro m s inp hin hpos hnv hyes hroll hlow
    rw [step_unvisited_yes hpos hnv hin hyes, roomEvent_combat_eof hroll hlow]
    exact ⟨rfl, rfl, rfl⟩

/-- Session state with no input at all. -/
def stE : GState := ⟨Player.init, [], [], fun _ => 0⟩

/-- Session state at an already-visited room with no input left. -/
def stV : GState := ⟨Player.init, [((0 : Int), (0 : Int))], [], fun _ => 0⟩

/-- Random stream that avoids the 1% death roll and lands in the combat
band, for the fight-prompt scenario. -/
def gC : RNG := fun i => [5, 7, 2].getD i 0

/-- Session state whose only input line answers the room prompt, leaving the
fight prompt to hit end-of-input. -/
def stC : GState := ⟨Player.init, [], ["y"], gC⟩

theorem eof_prompts_graceful_witness :
    ((step mazeA stE).state.player = stE.player ∧
      (step mazeA stE).out.getLast? = some Msg.eofMsg) ∧
    ((step mazeA stV).state.player = stV.player ∧
      (step mazeA stV).out.getLast? = some Msg.eofMsg) ∧
    ((step mazeA stC).state.player = stC.player ∧
      (step mazeA stC).out.getLast? = some Msg.eofMsg) :=
  ⟨⟨(eof_prompts_graceful.1 mazeA stE rfl (by decide) (by decide)).2.1,
    (eof_prompts_graceful.1 mazeA stE rfl (by decide) (by decide)).2.2⟩,
   ⟨(eof_prompts_graceful.2.1 mazeA stV rfl (by decide) (by decide) (by decide)).2.1,
    (eof_prompts_graceful.2.1 mazeA stV rfl (by decide) (by decide) (by decide)).2.2⟩,
   ⟨(eof_prompts_graceful.2.2 mazeA stC "y" rfl (by decide) (by decide) (by decide)
      (by decide) (by decide)).2.1,
    (eof_prompts_graceful.2.2 mazeA stC "y" rfl (by decide) (by decide) (by decide)
      (by decide) (by decide)).2.2⟩⟩

/-- C8: when a negative room outcome drives the player's health to exactly 0,
`is_alive` returns false and the session terminates in the died state: the
run's trace ends with the death message and final stats and never contains
the escape or congratulation message. -/
theorem negative_outcome_exact_zero_death (m : Maze) (s : GState) (inp : String)
    (rest : List String) (fuel : Nat)
    (halive : s.player.is_alive = true)
    (hpos : s.player.position ≠ m.exit_room)
    (hnv : s.player.position ∉ s.visited)
    (hin : s.input = inp :: rest)
    (hyes : pyLower (pyStrip inp) ∈ yes_options)
    (hroll : s.g 0 % 100 ≠ 0)
    (hlo : 750000 ≤ s.g 1 % 1000000) (hhi : s.g 1 % 1000000 < 950000)
    (hdead : (applyNegativeOutcome
        (negative_outcomes.getD (s.g 2 % 4) "") s.player).health = 0) :
    ∃ st2 out, step m s = .stop st2 out ∧
      st2.player.health = 0 ∧ st2.player.is_alive = false ∧
      (runAux m (fuel + 1) s).2.1 = out ++ [Msg.gameOverDied, Msg.finalStats] ∧
      Msg.escapeMsg ∉ (runAux m (fuel + 1) s).2.1 ∧
      Msg.congrats ∉ (runAux m (fuel + 1) s).2.1 := by
  have hal : (applyNegativeOutcome
      (negative_outcomes.getD (s.g 2 % 4) "") s.player).is_alive = false := by
    unfold Player.is_alive
    rw [hdead]
    rfl
  have heq := step_unvisited_yes hpos hnv hin hyes
  rw [roomEvent_negative hroll hlo hhi] at heq
  unfold afterEvent at heq
  rw [if_pos hal] at heq
  have hrun : runAux m (fuel + 1) s =
      ((step m s).state, (step m s).out ++ [Msg.gameOverDied, Msg.finalStats], true) := by
    unfold runAux
    rw [halive]
    simp only [if_true]
    rw [heq]
    dsimp only [StepRes.state, StepRes.out]
    unfold postlude
    rw [hal]
    rfl
  refine ⟨_, _, heq, ?_, ?_, ?_, ?_, ?_⟩
  · exact hdead
  · exact hal
  · rw [hrun, heq]
    rfl
  · rw [hrun, heq]
    simp [StepRes.out]
  · rw [hrun, heq]
    simp [StepRes.out]

/-- Random stream for the exact-zero-death scenario: avoids the 1% roll,
lands in the negative band, and draws the 15-damage outcome. -/
def gB : RNG := fun i => [50, 800000, 0].getD i 0

/-- Session state with health exactly 15, answering yes. -/
def stB : GState := ⟨{ Player.init with health := 15 }, [], ["yes"], gB⟩

theorem negative_outcome_exact_zero_death_witness :
    ∃ st2 out, step mazeA stB = .stop st2 out ∧
      st2.player.health = 0 ∧ st2.player.is_alive = false ∧
      (runAux mazeA 3 stB).2.1 = out ++ [Msg.gameOverDied, Msg.finalStats] ∧
      Msg.escapeMsg ∉ (runAux mazeA 3 stB).2.1 ∧
      Msg.congrats ∉ (runAux mazeA 3 stB).2.1 :=
  negative_outcome_exact_zero_death mazeA stB "yes" [] 2 (by decide) (by decide)
    (by decide) rfl (by decide) (by decide) (by decide) (by decide) (by decide)

/-! ### Outcome effects (C6) and combat termination (C7) -/

/-- The effect the spec fixes for the i-th positive outcome (spec-side
comparison table for the dispatch code). -/
def specPositiveEffect : Nat → Player → Player
  | 0, p => { p with gold := p.gold + 20 }
  | 1, p => { p with health := p.health + 10 }
  | 2, p => { p with inventory := p.inventory ++ ["Healing Potion"] }
  | 3, p => { p with strength := p.strength + 1 }
  | 4, p => { p with inventory := p.inventory ++ ["Sword"], strength := p.strength + 2 }
  | 5, p => { p with experience := p.experience + 50 }
  | 6, p => { p with inventory := p.inventory ++ ["Key"] }
  | _, p => p

/-- The effect the spec fixes for the i-th negative outcome: lose exactly
15, 10, and 20 health, and lose 10 gold floored at 0. -/
def specNegativeEffect : Nat → Player → Player
  | 0, p => { p with health := p.health - 15 }
  | 1, p => { p with health := p.health - 10 }
  | 2, p => { p with gold := max 0 (p.gold - 10) }
  | 3, p => { p with health := p.health - 20 }
  | _, p => p

/-- C6: each positive and negative outcome applies exactly its own fixed
effect — the substring dispatch and the text-parsed health losses coincide
with the spec's per-outcome table, with no double application. -/
theorem outcome_effects_exact :
    (∀ (p : Player) (i : Nat), i < positive_outcomes.length →
      applyPositiveOutcome (positive_outcomes.getD i "") p = specPositiveEffect i p) ∧
    (∀ (p : Player) (i : Nat), i < negative_outcomes.length →
      applyNegativeOutcome (negative_outcomes.getD i "") p = specNegativeEffect i p) := by
  constructor
  · intro p i hi
    have hi7 : i < 7 := by simpa [positive_outcomes] using hi
    interval_cases i <;> rfl
  · intro p i hi
    have hi4 : i < 4 := by simpa [negative_outcomes] using hi
    interval_cases i <;> rfl

theorem outcome_effects_exact_witness :
    applyPositiveOutcome (positive_outcomes.getD 0 "") Player.init =
      specPositiveEffect 0 Player.init ∧
    applyNegativeOutcome (negative_outcomes.getD 0 "") Player.init =
      specNegativeEffect 0 Player.init :=
  ⟨outcome_effects_exact.1 Player.init 0 (by decide),
   outcome_effects_exact.2 Player.init 0 (by decide)⟩

lemma combatLoop_some :
    ∀ (fuel : Nat) (p : Player) (mh ms : Int) (g : RNG),
      1 ≤ p.strength → mh.toNat < fuel →
      ∃ r, combatLoop fuel p mh ms g = some r
  | 0, p, mh, ms, g, _, hlt => absurd hlt (by omega)
  | fuel + 1, p, mh, ms, g, hs, hlt => by
    unfold combatLoop
    dsimp only
    by_cases hc : p.health > 0 ∧ mh > 0
    · obtain ⟨hc1, hc2⟩ := hc
      rw [if_pos ⟨hc1, hc2⟩]
      have hdmg : 1 ≤ (randint 1 p.strength g).1 := by
        show 1 ≤ 1 + ((g.head : Nat) : Int) % (p.strength - 1 + 1)
        have h0 : (0 : Int) ≤ ((g.head : Nat) : Int) % (p.strength - 1 + 1) :=
          Int.emod_nonneg _ (by omega)
        omega
      by_cases hm2 : mh - (randint 1 p.strength g).1 ≤ 0
      · rw [if_pos hm2]
        exact ⟨_, rfl⟩
      · rw [if_neg hm2]
        exact combatLoop_some fuel _ _ ms _ hs (by omega)
    · rw [if_neg hc]
      by_cases hd : p.health ≤ 0
      · rw [if_pos hd]
        exact ⟨_, rfl⟩
      · rw [if_neg hd]
        exact ⟨_, rfl⟩

/-- C7: for every random stream and every player with strength at least 1
(and positive health), `Player.combat` terminates — the turn loop ends within
the monster's initial health pool, since the player deals at least 1 damage
per turn. -/
theorem combat_terminates (p : Player) (g : RNG) (hs : 1 ≤ p.strength)
    (hh : 1 ≤ p.health) : ∃ r, combat p g = some r := by
  unfold combat
  dsimp only
  exact combatLoop_some _ p _ _ _ hs (by omega)

theorem combat_terminates_witness :
    ∃ r, combat Player.init (fun _ => 0) = some r :=
  combat_terminates Player.init (fun _ => 0) (by decide) (by decide)

/-! ### Position safety (C10) -/

lemma get_neighbors_mem_inGrid {m : Maze} {y x : Int} {t : String × Int × Int}
    (hg : inGrid m.width m.height (y, x)) (ht : t ∈ get_neighbors m y x) :
    inGrid m.width m.height (t.2.1, t.2.2) := by
  rw [inGrid_mk] at hg
  simp only [get_neighbors, List.mem_filterMap] at ht
  obtain ⟨d, hd, hfd⟩ := ht
  split_ifs at hfd with h1 h2 h3 h4
  · injection hfd with h5
    subst h5
    dsimp only
    rw [inGrid_mk]
    obtain ⟨-, hb⟩ := h1
    omega
  · injection hfd with h5
    subst h5
    dsimp only
    rw [inGrid_mk]
    obtain ⟨-, hb⟩ := h2
    omega
  · injection hfd with h5
    subst h5
    dsimp only
    rw [inGrid_mk]
    obtain ⟨-, hb⟩ := h3
    omega
  · injection hfd with h5
    subst h5
    dsimp only
    rw [inGrid_mk]
    obtain ⟨-, hb⟩ := h4
    omega

lemma applyPositiveOutcome_position (o : String) (p : Player) :
    (applyPositiveOutcome o p).position = p.position := by
  unfold applyPositiveOutcome
  split_ifs <;> rfl

lemma applyNegativeOutcome_position (o : String) (p : Player) :
    (applyNegativeOutcome o p).position = p.position := by
  unfold applyNegativeOutcome
  split_ifs <;> rfl

lemma applyCombatGain_position (o : String) (p : Player) :
    (applyCombatGain o p).position = p.position := by
  unfold applyCombatGain
  split_ifs <;> rfl

lemma combatLoop_position :
    ∀ (fuel : Nat) (p : Player) (mh ms : Int) (g : RNG) (r : Bool × Player × RNG),
      combatLoop fuel p mh ms g = some r → r.2.1.position = p.position
  | 0, p, mh, ms, g, r, h => by cases h
  | fuel + 1, p, mh, ms, g, r, h => by
    unfold combatLoop at h
    dsimp only at h
    split_ifs at h with hc hm2 hd
    · simp only [Option.some.injEq] at h
      rw [← h]
      exact applyCombatGain_position _ _
    · have h2 := combatLoop_position fuel _ _ _ _ r h
      exact h2
    · simp only [Option.some.injEq] at h
      rw [← h]
    · simp only [Option.some.injEq] at h
      rw [← h]

lemma combat_position {p : Player} {g : RNG} {r : Bool × Player × RNG}
    (h : combat p g = some r) : r.2.1.position = p.position := by
  unfold combat at h
  exact combatLoop_position _ _ _ _ _ _ h

lemma doorPhase_position (m : Maze) (p : Player) (v : List (Int × Int))
    (input : List String) (g : RNG) (pre : List Msg) :
    (doorPhase m p v input g pre).state.player.position = p.position ∨
      ∃ t ∈ get_neighbors m p.position.1 p.position.2,
        (doorPhase m p v input g pre).state.player.position = (t.2.1, t.2.2) := by
  unfold doorPhase
  dsimp only
  by_cases h1 : get_neighbors m p.position.1 p.position.2 = []
  · rw [if_pos h1]
    left
    rfl
  · rw [if_neg h1]
    cases input with
    | nil => left; rfl
    | cons c rest =>
      dsimp only
      cases hlk : List.lookup (pyStrip c)
          ((List.range (get_neighbors m p.position.1 p.position.2).length).map
            fun i => (toString (i + 1),
              (get_neighbors m p.position.1 p.position.2).getD i ("", 0, 0))) with
      | none => left; rfl
      | some t =>
        dsimp only
        by_cases h2 : (randint 1 100 g).1 = 1
        · rw [if_pos h2]
          left
          rfl
        · rw [if_neg h2]
          right
          refine ⟨t, ?_, rfl⟩
          obtain ⟨pr, hpr, hpe⟩ := lookup_mem hlk
          rw [List.mem_map] at hpr
          obtain ⟨i, hi, he⟩ := hpr
          rw [List.mem_range] at hi
          rw [← hpe, ← he]
          dsimp only
          rw [List.getD_eq_getElem _ _ hi]
          exact List.getElem_mem hi

lemma afterEvent_position (m : Maze) (p : Player) (v : List (Int × Int))
    (input : List String) (g : RNG) (pre : List Msg) :
    (afterEvent m p v input g pre).state.player.position = p.position ∨
      ∃ t ∈ get_neighbors m p.position.1 p.position.2,
        (afterEvent m p v input g pre).state.player.position = (t.2.1, t.2.2) := by
  unfold afterEvent
  by_cases h : p.is_alive = false
  · rw [if_pos h]
    left
    rfl
  · rw [if_neg h]
    exact doorPhase_position m p v input g pre

lemma roomEvent_position (m : Maze) (p : Player) (v : List (Int × Int))
    (rest : List String) (g : RNG) (pre : List Msg) :
    (roomEvent m p v rest g pre).state.player.position = p.position ∨
      ∃ t ∈ get_neighbors m p.position.1 p.position.2,
        (roomEvent m p v rest g pre).state.player.position = (t.2.1, t.2.2) := by
  unfold roomEvent
  dsimp only
  by_cases hroll : (randint 1 100 g).1 = 1
  · rw [if_pos hroll]
    left
    rfl
  · rw [if_neg hroll]
    by_cases h10 : (randomQ (randint 1 100 g).2).1 < 1 / 10
    · rw [if_pos h10]
      cases rest with
      | nil => left; rfl
      | cons f rest2 =>
        dsimp only
        by_cases hbad : pyLower (pyStrip f) ∉ yes_options ++ no_options
        · rw [if_pos hbad]
          left
          rfl
        · rw [if_neg hbad]
          by_cases hfy : pyLower (pyStrip f) ∈ yes_options
          · rw [if_pos hfy]
            cases hcb : combat p (pychoice combat_outcomes ""
                (randomQ (randint 1 100 g).2).2).2 with
            | none => left; rfl
            | some r =>
              dsimp only
              by_cases hwin : r.1 = true
              · rw [if_pos hwin]
                have hpp := combat_position hcb
                have := afterEvent_position m r.2.1 v rest2 r.2.2
                  (pre ++ [Msg.combatFlavor (pychoice combat_outcomes ""
                    (randomQ (randint 1 100 g).2).2).1, Msg.combatEntered])
                rw [hpp] at this
                exact this
              · rw [if_neg hwin]
                left
                dsimp only
                exact combat_position hcb
          · rw [if_neg hfy]
            have := afterEvent_position m { p with health := p.health - 10 } v rest2
              (pychoice combat_outcomes "" (randomQ (randint 1 100 g).2).2).2
              (pre ++ [Msg.combatFlavor (pychoice combat_outcomes ""
                (randomQ (randint 1 100 g).2).2).1, Msg.fleeMsg])
            exact this
    · rw [if_neg h10]
      by_cases h34 : (randomQ (randint 1 100 g).2).1 < 3 / 4
      · rw [if_pos h34]
        have := afterEvent_position m (applyPositiveOutcome (pychoice positive_outcomes ""
            (randomQ (randint 1 100 g).2).2).1 p) v rest
          (pychoice positive_outcomes "" (randomQ (randint 1 100 g).2).2).2
          (pre ++ [Msg.outcomeText (pychoice positive_outcomes ""
            (randomQ (randint 1 100 g).2).2).1])
        rw [applyPositiveOutcome_position] at this
        exact this
      · rw [if_neg h34]
        by_cases h1920 : (randomQ (randint 1 100 g).2).1 < 19 / 20
        · rw [if_pos h1920]
          have := afterEvent_position m (applyNegativeOutcome (pychoice negative_outcomes ""
              (randomQ (randint 1 100 g).2).2).1 p) v rest
            (pychoice negative_outcomes "" (randomQ (randint 1 100 g).2).2).2
            (pre ++ [Msg.outcomeText (pychoice negative_outcomes ""
              (randomQ (randint 1 100 g).2).2).1])
          rw [applyNegativeOutcome_position] at this
          exact this
        · rw [if_neg h1920]
          exact afterEvent_position m p v rest
            (pychoice even_outcomes "" (randomQ (randint 1 100 g).2).2).2
            (pre ++ [Msg.outcomeText (pychoice even_outcomes ""
              (randomQ (randint 1 100 g).2).2).1])

lemma step_position (m : Maze) (s : GState) :
    (step m s).state.player.position = s.player.position ∨
      ∃ t ∈ get_neighbors m s.player.position.1 s.player.position.2,
        (step m s).state.player.position = (t.2.1, t.2.2) := by
  obtain ⟨pl, vis, input, g⟩ := s
  unfold step
  dsimp only
  by_cases hex : pl.position = m.exit_room
  · rw [if_pos hex]
    left
    rfl
  · rw [if_neg hex]
    by_cases hv : pl.position ∈ vis
    · rw [if_pos hv]
      exact doorPhase_position m pl vis input g []
    · rw [if_neg hv]
      cases input with
      | nil => left; rfl
      | cons inp rest =>
        dsimp only
        by_cases hbad : pyLower (pyStrip inp) ∉ yes_options ++ no_options
        · rw [if_pos hbad]
          left
          rfl
        · rw [if_neg hbad]
          by_cases hyes : pyLower (pyStrip inp) ∈ yes_options
          · rw [if_pos hyes]
            exact roomEvent_position m pl (pl.position :: vis) rest g _
          · rw [if_neg hyes]
            exact doorPhase_position m pl (pl.position :: vis) rest g _

lemma step_inGrid (m : Maze) (s : GState)
    (hg : inGrid m.width m.height s.player.position) :
    inGrid m.width m.height (step m s).state.player.position := by
  rcases step_position m s with h | ⟨t, ht, he⟩
  · rw [h]
    exact hg
  · rw [he]
    refine get_neighbors_mem_inGrid ?_ ht
    rw [Prod.mk.eta]
    exact hg

lemma runAux_inGrid (m : Maze) :
    ∀ (fuel : Nat) (s : GState), inGrid m.width m.height s.player.position →
      inGrid m.width m.height (runAux m fuel s).1.player.position
  | 0, s, h => h
  | fuel + 1, s, h => by
    unfold runAux
    by_cases ha : s.player.is_alive = true
    · rw [if_pos ha]
      cases hst : step m s with
      | next s2 out =>
        dsimp only
        refine runAux_inGrid m fuel s2 ?_
        have h2 := step_inGrid m s h
        rw [hst] at h2
        exact h2
      | stop s2 out =>
        dsimp only
        have h2 := step_inGrid m s h
        rw [hst] at h2
        exact h2
    · rw [if_neg ha]
      exact h

/-- C10: in every session on the default 5x5 maze, the player's position
stays inside the grid (both for one turn and for whole runs), and for every
in-grid position the room id `y*width+x` lies in [0,24], within the bounds
of both 25-entry narrative tables. -/
theorem session_position_in_bounds :
    (∀ (g : RNG) (s : GState), inGrid 5 5 s.player.position →
      inGrid 5 5 ((step (Maze.make 5 5 g).1 s).state.player.position)) ∧
    (∀ (g : RNG) (fuel : Nat) (s : GState), inGrid 5 5 s.player.position →
      inGrid 5 5 ((runAux (Maze.make 5 5 g).1 fuel s).1.player.position)) ∧
    (∀ y x : Int, inGrid 5 5 (y, x) →
      0 ≤ y * 5 + x ∧ y * 5 + x ≤ 24 ∧
        (y * 5 + x).toNat < room_descriptions.length ∧
        (y * 5 + x).toNat < choices.length) := by
  refine ⟨?_, ?_, ?_⟩
  · intro g s hg
    exact step_inGrid (Maze.make 5 5 g).1 s hg
  · intro g fuel s hg
    exact runAux_inGrid (Maze.make 5 5 g).1 fuel s hg
  · intro y x hg
    rw [inGrid_mk] at hg
    refine ⟨by omega, by omega, ?_, ?_⟩
    · show (y * 5 + x).toNat < 25
      omega
    · show (y * 5 + x).toNat < 25
      omega

theorem session_position_in_bounds_witness :
    inGrid 5 5 ((step (Maze.make 5 5 (fun _ => 0)).1 stE).state.player.position) ∧
      inGrid 5 5 ((runAux (Maze.make 5 5 (fun _ => 0)).1 3 stE).1.player.position) ∧
      (0 ≤ (0 : Int) * 5 + 0 ∧ (0 : Int) * 5 + 0 ≤ 24 ∧
        ((0 : Int) * 5 + 0).toNat < room_descriptions.length ∧
        ((0 : Int) * 5 + 0).toNat < choices.length) :=
  ⟨session_position_in_bounds.1 (fun _ => 0) stE (by decide),
   session_position_in_bounds.2.1 (fun _ => 0) 3 stE (by decide),
   session_position_in_bounds.2.2 0 0 (by decide)⟩

end Mazegame
